import Mathlib

/-!
Verification of the outbound message delivery scheduler of an AI school
assistant userbot.  The definitions below are shallow embeddings of the
functions in backend/telegram/human_behavior.py and
backend/telegram/userbot.py; the theorems settle the specification's claims
against those embeddings.

Modelling conventions:
* Python strings are embedded as `List Char`; Python floats (wall-clock
  times, delays) as `ℚ` (exact arithmetic, the idealised semantics of the
  float code).
* `random.uniform a b` is embedded as `uniformSample a b u` where the
  sample point `u` ranges over `[0, 1]`.
* `await asyncio.sleep w` is modelled as advancing the ideal clock by
  exactly `w`.
* Effectful code (`_send_response_as_messages`, `_handle_message`,
  `_send_greeting_internal`) is embedded as a pure function from an
  environment (which resolves every external interaction: send outcomes,
  interrupt-flag reads, agent responses) to the trace of effects it
  performs, plus its result.
-/

set_option maxHeartbeats 1000000

/-! # Definitions -/

/-! ## Delay model (human_behavior.py) -/

/-- Model of a single draw of `random.uniform a b`: its value at sample
point `u ∈ [0,1]`. -/
def uniformSample (a b u : ℚ) : ℚ := a + u * (b - a)

/-- Embedding of `get_read_delay` (human_behavior.py lines 109-119). -/
def get_read_delay (message_length : Nat) (u : ℚ) : ℚ :=
  if message_length < 20 then uniformSample 1 3 u
  else if message_length < 100 then uniformSample 2 5 u
  else uniformSample 3 7 u

/-- Embedding of `get_thinking_delay` (human_behavior.py lines 122-131). -/
def get_thinking_delay (message_length : Nat) (u : ℚ) : ℚ :=
  if message_length < 20 then uniformSample 1 3 u
  else if message_length < 80 then uniformSample 3 8 u
  else uniformSample 5 12 u

/-! ## Rate limiter (human_behavior.py, class MessageRateLimiter) -/

/-- The state of a `MessageRateLimiter`: the three configured caps and the
recorded list of send timestamps. -/
structure RateLimiterState where
  maxPerMinute : Nat
  maxPerHour : Nat
  maxPerDay : Nat
  timestamps : List ℚ
deriving DecidableEq

/-- Embedding of `MessageRateLimiter._prune`: drop timestamps older than
24 hours (keep `t` with `t > now - 86400`). -/
def prune (ts : List ℚ) (now : ℚ) : List ℚ :=
  ts.filter (fun t => decide (now - 86400 < t))

/-- Embedding of `MessageRateLimiter._count_in_window`: the number of
recorded timestamps `t` with `t > now - windowSeconds`. -/
def countInWindow (ts : List ℚ) (now windowSeconds : ℚ) : Nat :=
  ts.countP (fun t => decide (now - windowSeconds < t))

/-- Embedding of Python's `min` over a list of floats. -/
def listMin : List ℚ → Option ℚ
  | [] => none
  | t :: rest =>
    match listMin rest with
    | none => some t
    | some m => some (min t m)

/-- The outcome of one limit check inside `acquire`: the (possibly pruned)
timestamp list, the clock after the check's sleep, and the wait slept. -/
structure LimitStepResult where
  ts : List ℚ
  now : ℚ
  wait : ℚ
deriving DecidableEq

/-- One of the three limit checks of `MessageRateLimiter.acquire`
(human_behavior.py lines 174-204): if the window count is at the cap, sleep
until the oldest entry in the window expires plus `jitter`, then re-prune
(the daily and hourly checks re-prune; the per-minute check does not). -/
def limitStep (cap : Nat) (windowSeconds jitter : ℚ) (reprune : Bool)
    (ts : List ℚ) (now : ℚ) : LimitStepResult :=
  if cap ≤ countInWindow ts now windowSeconds then
    match listMin (ts.filter (fun t => decide (now - windowSeconds < t))) with
    | some oldest =>
      let wait := oldest + windowSeconds - now + jitter
      let now1 := now + wait
      ⟨if reprune then prune ts now1 else ts, now1, wait⟩
    | none => ⟨ts, now, 0⟩
  else ⟨ts, now, 0⟩

/-- Embedding of `MessageRateLimiter.acquire` (human_behavior.py lines
166-207): prune, run the daily, hourly and per-minute checks in that
order, append the current time, and return (new state, clock on return,
total wait).  `jd`, `jh`, `jm` are the jitter draws of the three checks. -/
def acquire (rl : RateLimiterState) (now jd jh jm : ℚ) :
    RateLimiterState × ℚ × ℚ :=
  let ts0 := prune rl.timestamps now
  let s1 := limitStep rl.maxPerDay 86400 jd true ts0 now
  let s2 := limitStep rl.maxPerHour 3600 jh true s1.ts s1.now
  let s3 := limitStep rl.maxPerMinute 60 jm false s2.ts s2.now
  ({ rl with timestamps := s3.ts ++ [s3.now] }, s3.now,
   s1.wait + s2.wait + s3.wait)

/-- Embedding of the `MessageRateLimiter.stats` property (human_behavior.py
lines 209-217): it prunes `_timestamps` in place, then returns the counts
in the last minute, hour and day.  The result pairs the returned counts
with the state after the call. -/
def stats (rl : RateLimiterState) (now : ℚ) :
    (Nat × Nat × Nat) × RateLimiterState :=
  let ts := prune rl.timestamps now
  ((countInWindow ts now 60, countInWindow ts now 3600,
    countInWindow ts now 86400),
   { rl with timestamps := ts })

/-- The invariant claimed for the limiter: the number of recorded
timestamps inside each trailing window is at most that window's cap. -/
def withinCaps (rl : RateLimiterState) (now : ℚ) : Prop :=
  countInWindow rl.timestamps now 60 ≤ rl.maxPerMinute ∧
  countInWindow rl.timestamps now 3600 ≤ rl.maxPerHour ∧
  countInWindow rl.timestamps now 86400 ≤ rl.maxPerDay

/-- A step of the limiter's environment: either the wall clock advances, or
a caller runs `acquire` (with arbitrary nonnegative jitter draws; the
actual draws are from `uniform(1,5)`, `uniform(1,10)`, `uniform(0.5,3)`,
all nonnegative). -/
inductive LimiterStep : RateLimiterState × ℚ → RateLimiterState × ℚ → Prop
  | advance (rl : RateLimiterState) (now d : ℚ) (hd : 0 ≤ d) :
      LimiterStep (rl, now) (rl, now + d)
  | acq (rl : RateLimiterState) (now jd jh jm : ℚ)
      (hjd : 0 ≤ jd) (hjh : 0 ≤ jh) (hjm : 0 ≤ jm) :
      LimiterStep (rl, now)
        ((acquire rl now jd jh jm).1, (acquire rl now jd jh jm).2.1)

/-! ## Response delivery (_send_response_as_messages, userbot.py lines 290-354) -/

/-- Result of one platform send attempt. -/
inductive SendResult
  | ok
  | floodWait (seconds : Nat)
  | peerInvalid
  | otherError
deriving DecidableEq

/-- Environment resolving the delivery loop's external interactions:
`flagSet i` is the value of the counterparty's interrupt flag observed at
the part boundary before part `i`; `sendOutcome i a` is the platform's
response to attempt `a` (0 = first try, 1 = flood retry) of sending part
`i`. -/
structure DeliverEnv where
  flagSet : Nat → Bool
  sendOutcome : Nat → Nat → SendResult

/-- Observable effects of the delivery loop, in order.  `typingSim` stands
for the chunked typing-indicator block run before a first send attempt
(the `while remaining > 0` loop); `acquireLimiter` is a call to
`MessageRateLimiter.acquire` (the only operation that records a limiter
timestamp); `floodSleep s` is the `asyncio.sleep(e.seconds)` of the
flood-wait handler; `interPartSleep` is the variable delay before the next
part. -/
inductive Ev
  | acquireLimiter
  | typingSim
  | send (part attempt : Nat)
  | floodSleep (seconds : Nat)
  | interPartSleep
deriving DecidableEq

/-- Exit status of the delivery loop: `Completed` (all parts sent),
`Interrupted` (stopped at a part boundary because the interrupt flag was
set), `Failed` (a send failed permanently: failed flood retry, invalid
peer, or other error — the code `return`s, abandoning remaining parts). -/
inductive DeliveryState
  | Completed
  | Interrupted
  | Failed
deriving DecidableEq

/-- The delivery loop's observable outcome: its effect trace, the indices
of the parts actually delivered, and its exit status. -/
structure DeliverResult where
  trace : List Ev
  sent : List Nat
  state : DeliveryState
deriving DecidableEq

/-- Embedding of the `for i, part in enumerate(parts)` loop of
`_send_response_as_messages` (userbot.py lines 303-354), starting at part
index `i` with `total` parts overall.  Each iteration: interrupt-flag
check (only when `i > 0`), `rate_limiter.acquire()`, typing simulation,
the send; on `FloodWaitError` sleep the platform-given seconds and retry
the same part once, bare (no acquire, no typing) — a failed retry or any
other error `return`s; after a successful first-attempt send of every part
but the last, sleep the inter-part delay. -/
def runParts (env : DeliverEnv) (total : Nat) : Nat → List (List Char) → DeliverResult
  | _, [] => ⟨[], [], .Completed⟩
  | i, _ :: rest =>
    if 0 < i ∧ env.flagSet i then ⟨[], [], .Interrupted⟩
    else
      match env.sendOutcome i 0 with
      | .ok =>
        let r := runParts env total (i + 1) rest
        ⟨[.acquireLimiter, .typingSim, .send i 0] ++
           (if i < total - 1 then [.interPartSleep] else []) ++ r.trace,
         i :: r.sent, r.state⟩
      | .floodWait s =>
        match env.sendOutcome i 1 with
        | .ok =>
          let r := runParts env total (i + 1) rest
          ⟨[.acquireLimiter, .typingSim, .send i 0, .floodSleep s, .send i 1] ++ r.trace,
           i :: r.sent, r.state⟩
        | _ =>
          ⟨[.acquireLimiter, .typingSim, .send i 0, .floodSleep s, .send i 1],
           [], .Failed⟩
      | .peerInvalid => ⟨[.acquireLimiter, .typingSim, .send i 0], [], .Failed⟩
      | .otherError => ⟨[.acquireLimiter, .typingSim, .send i 0], [], .Failed⟩

/-- The trace of one fully successful loop iteration for part `i`. -/
def okIter (total i : Nat) : List Ev :=
  [.acquireLimiter, .typingSim, .send i 0] ++
    (if i < total - 1 then [.interPartSleep] else [])

/-- Recognises a send event (any attempt) of part `tgt`. -/
def isSendOf (tgt : Nat) : Ev → Bool
  | .send j _ => decide (j = tgt)
  | _ => false

/-- Recognises a limiter-acquire event. -/
def isAcquire : Ev → Bool
  | .acquireLimiter => true
  | _ => false

/-- Recognises a typing-simulation event. -/
def isTyping : Ev → Bool
  | .typingSim => true
  | _ => false

/-! ## Message splitter (human_behavior.py lines 220-277) -/

/-- Whitespace test on a character (the embedding of the `str.strip`
family). -/
def isWS (c : Char) : Bool := c.isWhitespace

/-- Embedding of `str.lstrip`. -/
def lstripChars (s : List Char) : List Char := s.dropWhile isWS

/-- Embedding of `str.rstrip`: drop all trailing whitespace. -/
def rstripChars : List Char → List Char
  | [] => []
  | c :: rest =>
    let r := rstripChars rest
    if r.isEmpty && isWS c then [] else c :: r

/-- Embedding of `str.strip`. -/
def stripChars (s : List Char) : List Char := rstripChars (lstripChars s)

/-- All non-whitespace characters of a string, in order — used to state
"equal up to inserted/removed whitespace". -/
def deWS (s : List Char) : List Char := s.filter (fun c => ! isWS c)

/-- Maximum of a list of naturals, embedding Python's choice of the last
(rightmost) occurrence in `rfind`. -/
def listMaxNat : List Nat → Option Nat
  | [] => none
  | x :: xs =>
    match listMaxNat xs with
    | none => some x
    | some m => some (max x m)

/-- Embedding of Python's `t.rfind(sub)` for nonempty `sub`: the largest
index at which `sub` occurs in `t`, if any. -/
def rfindSeq (sub t : List Char) : Option Nat :=
  listMaxNat ((List.range (t.length + 1)).filter
    (fun i => sub.isPrefixOf (t.drop i)))

/-- The separator preference list of `split_long_message` (line 229). -/
def separators : List (List Char) :=
  [['\n', '\n'], ['\n'], ['.', ' '], [' ']]

/-- The `for sep in separators` loop of `split_long_message` (lines
234-239): the first separator whose last occurrence in the window (the
first `maxLen` characters) lies beyond 30% of `maxLen` wins, giving the
cut point `idx + len(sep)`; if no separator qualifies the cut point is
`maxLen`.  The float threshold `idx > max_length * 0.3` is modelled
exactly as the rational comparison `10 * idx > 3 * maxLen` (for the
default `max_length = 2000` the float comparison agrees with it). -/
def chooseSplitAux (maxLen : Nat) (window : List Char) :
    List (List Char) → Nat
  | [] => maxLen
  | sep :: rest =>
    match rfindSeq sep window with
    | some idx =>
      if 3 * maxLen < 10 * idx then idx + sep.length
      else chooseSplitAux maxLen window rest
    | none => chooseSplitAux maxLen window rest

/-- The cut point chosen for one iteration of the splitting loop. -/
def chooseSplit (maxLen : Nat) (window : List Char) : Nat :=
  chooseSplitAux maxLen window separators

/-- The `while len(remaining) > max_length` loop of `split_long_message`
(lines 232-242) together with the final `if remaining.strip()` append
(lines 244-245), fuel-indexed to keep the recursion structural: fuel
`≥ remaining.length` makes it exact, and the wrapper passes
`remaining.length`.  The loop guard carries the extra conjunct
`0 < maxLen`: at `maxLen = 0` the Python loop would never terminate, so
that configuration is outside the model. -/
def splitLoopFuel (maxLen : Nat) : Nat → List Char → List (List Char)
  | 0, remaining =>
    if (stripChars remaining).isEmpty then [] else [stripChars remaining]
  | fuel + 1, remaining =>
    if maxLen < remaining.length ∧ 0 < maxLen then
      let cut := chooseSplit maxLen (remaining.take maxLen)
      rstripChars (remaining.take cut) ::
        splitLoopFuel maxLen fuel (lstripChars (remaining.drop cut))
    else
      if (stripChars remaining).isEmpty then [] else [stripChars remaining]

/-- Embedding of `split_long_message` (human_behavior.py lines 220-247). -/
def split_long_message (text : List Char) (maxLen : Nat) :
    List (List Char) :=
  if text.length ≤ maxLen then [text]
  else splitLoopFuel maxLen text.length text

/-- The `---SPLIT---` delimiter (human_behavior.py line 251). -/
def MSG_SPLIT_DELIMITER : List Char :=
  ['-', '-', '-', 'S', 'P', 'L', 'I', 'T', '-', '-', '-']

/-- Embedding of Python's `text.split(delim)` for a nonempty delimiter:
scan left to right, cutting at each non-overlapping occurrence.
Fuel-indexed; the wrapper passes `s.length`, which is exact. -/
def splitOnSeqFuel (D : List Char) : Nat → List Char → List (List Char)
  | _, [] => [[]]
  | 0, s => [s]
  | fuel + 1, c :: rest =>
    if !D.isEmpty && D.isPrefixOf (c :: rest) then
      [] :: splitOnSeqFuel D fuel ((c :: rest).drop D.length)
    else
      match splitOnSeqFuel D fuel rest with
      | [] => [[c]]
      | h :: t => (c :: h) :: t

/-- `text.split(delim)`. -/
def splitOnSeq (D s : List Char) : List (List Char) :=
  splitOnSeqFuel D s.length s

/-- Whether `D` occurs in `s` as a contiguous block ("the input contains
the boundary marker"). -/
def containsSeq (D : List Char) : List Char → Bool
  | [] => D.isEmpty
  | c :: rest => D.isPrefixOf (c :: rest) || containsSeq D rest

/-- The per-segment body of the `for raw in raw_parts` loop of
`split_response_messages` (lines 266-274): strip the segment; discard it
if empty; apply the length fallback if it is still longer than
`maxPart`; otherwise keep it. -/
def processPart (maxPart : Nat) (raw : List Char) : List (List Char) :=
  let cleaned := stripChars raw
  if cleaned.isEmpty then []
  else if maxPart < cleaned.length then split_long_message cleaned maxPart
  else [cleaned]

/-- Embedding of `split_response_messages` (human_behavior.py lines
254-277): split on the delimiter, process each segment, and if nothing
survives return the stripped original text as a single message. -/
def split_response_messages (text : List Char) (maxPart : Nat) :
    List (List Char) :=
  let final :=
    ((splitOnSeq MSG_SPLIT_DELIMITER text).map (processPart maxPart)).flatten
  if final.isEmpty then [stripChars text] else final

/-! ## Inbound message handler (_handle_message, userbot.py lines 173-275) -/

/-- Inputs and environment of one `_handle_message` invocation: the event's
properties, the handler's configuration (`callbackSet` — whether
`on_student_message` registered a callback), the known-student id set, the
agent's response (`[]` models Python-falsy "no response"), and the
sender's inbound-rate state (`inboundTs`, pruned-and-appended by the
call but irrelevant to the admission decision modelled here). -/
structure HandlerEnv where
  isPrivate : Bool
  senderIsUser : Bool
  senderIsBot : Bool
  senderId : Nat
  username : List Char
  text : List Char
  callbackSet : Bool
  knownIds : List Nat
  response : List Char
  inboundTs : List ℚ
  now : ℚ

/-- Observable actions of `_handle_message`, in program order.
`genResponse` is the call to the external `_on_student_message` callback;
`deliverResponse` the call to `_send_response_as_messages` (the only
action that sends); `gateAcquire` entering the concurrency semaphore;
`readAck` the `send_read_acknowledge` read receipt. -/
inductive HAct
  | genResponse
  | registerKnown
  | deliverResponse
  | setInterruptFlag
  | gateAcquire
  | clearInterruptFlag
  | readSleep
  | readAck
  | typingStart
  | thinkSleep
  | typingCancel
deriving DecidableEq

/-- Embedding of `_handle_message` (userbot.py lines 173-275) as the list
of actions it performs.  Guards in code order: non-private, non-user or
bot sender, empty text, and missing callback all return with no action;
an unknown sender without a username is dropped silently, one with a
username gets a lightweight path (callback; on a truthy response,
registration plus delivery); known senders pass the inbound rate check
(prune to 60 s, minimum 2 s gap, at most 10 per minute) and then get the
full human-like flow. -/
def handleMessage (env : HandlerEnv) : List HAct :=
  if ¬ env.isPrivate then []
  else if ¬ env.senderIsUser ∨ env.senderIsBot then []
  else if env.text.isEmpty then []
  else if ¬ env.callbackSet then []
  else if env.senderId ∉ env.knownIds then
    if env.username.isEmpty then []
    else
      HAct.genResponse ::
        (if env.response.isEmpty then []
         else [HAct.registerKnown, HAct.deliverResponse])
  else
    let timestamps := env.inboundTs.filter (fun t => decide (env.now - t < 60))
    let gapTooSmall :=
      match timestamps.getLast? with
      | some last => decide (env.now - last < 2)
      | none => false
    if gapTooSmall then []
    else if 10 ≤ timestamps.length then []
    else
      [HAct.setInterruptFlag, HAct.gateAcquire, HAct.clearInterruptFlag,
       HAct.readSleep, HAct.readAck, HAct.typingStart, HAct.thinkSleep,
       HAct.genResponse, HAct.typingCancel] ++
        (if env.response.isEmpty then [] else [HAct.deliverResponse])

/-! ## Greeting with bounded retry (_send_greeting_internal, userbot.py lines 430-465) -/

/-- `MAX_RETRIES` (userbot.py line 51). -/
def MAX_RETRIES : Nat := 3

/-- Outcome of one greeting attempt: the handle resolves and the greeting
path runs to the end (`success tid`, returning the resolved id), the
username does not exist (`notFound`, i.e. `UsernameNotOccupiedError` —
also covers the non-`User` entity early return), a flood-control error is
raised (`floodWaitG s`), or any other exception occurs. -/
inductive GreetOutcome
  | success (tid : Nat)
  | notFound
  | floodWaitG (seconds : Nat)
  | otherError
deriving DecidableEq

/-- Environment of `_send_greeting_internal`: the platform outcome of each
attempt number. -/
structure GreetEnv where
  outcome : Nat → GreetOutcome

/-- Observable effects of `_send_greeting_internal`: `resolve k` is the
`get_entity` call of attempt `k`; `contactSleep` the first-contact delay;
`deliverGreeting` the `_send_response_as_messages` call; `floodSleepG s`
the `asyncio.sleep(e.seconds)` before the recursive retry. -/
inductive GEv
  | resolve (attempt : Nat)
  | contactSleep
  | deliverGreeting
  | floodSleepG (seconds : Nat)
deriving DecidableEq

/-- Recognises a `resolve` event, i.e. one attempt being performed. -/
def isResolve : GEv → Bool
  | .resolve _ => true
  | _ => false

/-- Embedding of `_send_greeting_internal` (userbot.py lines 430-465),
fuel-indexed to make the recursion structural: the fuel bounds the
remaining recursion depth, and `sendGreetingInternal` supplies
`MAX_RETRIES - attempt`, which the `attempt >= MAX_RETRIES` guard makes
exact (at fuel 0 the guard would have returned `none` anyway).  On
success: resolve, first-contact sleep, deliver, return the id.  On
`UsernameNotOccupiedError` or any other error: return `none` with no
retry.  On flood-wait: sleep the platform-given seconds and recurse with
`attempt + 1`. -/
def sendGreetingFuel (env : GreetEnv) : Nat → Nat → List GEv × Option Nat
  | 0, _ => ([], none)
  | fuel + 1, attempt =>
    if MAX_RETRIES ≤ attempt then ([], none)
    else
      match env.outcome attempt with
      | .success tid =>
        ([.resolve attempt, .contactSleep, .deliverGreeting], some tid)
      | .notFound => ([.resolve attempt], none)
      | .floodWaitG s =>
        let r := sendGreetingFuel env fuel (attempt + 1)
        (GEv.resolve attempt :: GEv.floodSleepG s :: r.1, r.2)
      | .otherError => ([.resolve attempt], none)

/-- `_send_greeting_internal` called at a given attempt number. -/
def sendGreetingInternal (env : GreetEnv) (attempt : Nat) :
    List GEv × Option Nat :=
  sendGreetingFuel env (MAX_RETRIES - attempt) attempt

/-! # Theorems -/

/-! ## Delay model lemmas and claims C8 -/

lemma uniformSample_mem (a b u : ℚ) (hab : a ≤ b) (h0 : 0 ≤ u) (h1 : u ≤ 1) :
    a ≤ uniformSample a b u ∧ uniformSample a b u ≤ b := by
  unfold uniformSample
  constructor
  · nlinarith
  · nlinarith

/-- C8 (counterexample): the claim says every `textLength` with
`20 ≤ textLength < 100` yields a thinking delay in `[3, 8]` seconds, but at
length 90 the code is already in its third band `uniform(5, 12)`: the
sample point `u = 1` (a legal value of `random.uniform`) gives 12 seconds,
outside `[3, 8]`. -/
theorem c8_thinking_delay_band_counterexample :
    20 ≤ 90 ∧ 90 < 100 ∧ (0:ℚ) ≤ 1 ∧ (1:ℚ) ≤ 1 ∧
      get_thinking_delay 90 1 = 12 ∧ ¬ (get_thinking_delay 90 1 ≤ 8) := by
  refine ⟨by norm_num, by norm_num, by norm_num, by norm_num, ?_, ?_⟩ <;>
    norm_num [get_thinking_delay, uniformSample]

/-- C8 (amended): `get_thinking_delay` uses the bands `length < 20`,
`length < 80`, `else` (not `< 100` as `get_read_delay` does) with ranges
`[1,3]`, `[3,8]`, `[5,12]` seconds; `get_read_delay` uses `< 20`, `< 100`,
`else` with ranges `[1,3]`, `[2,5]`, `[3,7]`.  In particular the guaranteed
`[3,8]` band of the thinking delay covers exactly `20 ≤ length < 80`. -/
theorem c8_delay_bands (len : Nat) (u : ℚ) (h0 : 0 ≤ u) (h1 : u ≤ 1) :
    (len < 20 → 1 ≤ get_thinking_delay len u ∧ get_thinking_delay len u ≤ 3) ∧
    (20 ≤ len → len < 80 → 3 ≤ get_thinking_delay len u ∧ get_thinking_delay len u ≤ 8) ∧
    (80 ≤ len → 5 ≤ get_thinking_delay len u ∧ get_thinking_delay len u ≤ 12) ∧
    (len < 20 → 1 ≤ get_read_delay len u ∧ get_read_delay len u ≤ 3) ∧
    (20 ≤ len → len < 100 → 2 ≤ get_read_delay len u ∧ get_read_delay len u ≤ 5) ∧
    (100 ≤ len → 3 ≤ get_read_delay len u ∧ get_read_delay len u ≤ 7) := by
  refine ⟨fun h => ?_, fun h h2 => ?_, fun h => ?_, fun h => ?_, fun h h2 => ?_, fun h => ?_⟩ <;>
    simp only [get_thinking_delay, get_read_delay] <;>
    first
      | (rw [if_pos (by omega)]; exact uniformSample_mem _ _ _ (by norm_num) h0 h1)
      | (rw [if_neg (by omega), if_pos (by omega)]
         exact uniformSample_mem _ _ _ (by norm_num) h0 h1)
      | (rw [if_neg (by omega), if_neg (by omega)]
         exact uniformSample_mem _ _ _ (by norm_num) h0 h1)

/-- C8 (witness): the amended band theorem instantiated at length 50 and
sample point 1/2. -/
theorem c8_delay_bands_witness :
    3 ≤ get_thinking_delay 50 (1/2) ∧ get_thinking_delay 50 (1/2) ≤ 8 :=
  (c8_delay_bands 50 (1/2) (by norm_num) (by norm_num)).2.1 (by norm_num) (by norm_num)

/-! ## Rate limiter lemmas and claims C1, C9 -/

lemma countInWindow_mono_now (ts : List ℚ) (now now' w : ℚ) (h : now ≤ now') :
    countInWindow ts now' w ≤ countInWindow ts now w := by
  apply List.countP_mono_left
  intro t _ ht
  simp only [decide_eq_true_eq] at ht ⊢
  linarith

lemma countInWindow_filter_le (ts : List ℚ) (q : ℚ → Bool) (now w : ℚ) :
    countInWindow (ts.filter q) now w ≤ countInWindow ts now w := by
  unfold countInWindow
  rw [List.countP_filter]
  apply List.countP_mono_left
  intro t _ ht
  exact (Bool.and_elim_left ht)

lemma countP_lt_of_witness {l : List ℚ} {p q : ℚ → Bool} (a : ℚ) (ha : a ∈ l)
    (hpa : p a = true) (hqa : q a = false)
    (himp : ∀ t ∈ l, q t = true → p t = true) :
    l.countP q < l.countP p := by
  induction l with
  | nil => cases ha
  | cons x xs ih =>
    rw [List.countP_cons, List.countP_cons]
    rcases List.mem_cons.mp ha with hx | hx
    · subst hx
      rw [hpa, hqa, if_pos rfl, if_neg Bool.false_ne_true]
      have hle : xs.countP q ≤ xs.countP p :=
        List.countP_mono_left (fun t ht => himp t (List.mem_cons_of_mem _ ht))
      omega
    · have hlt : xs.countP q < xs.countP p :=
        ih hx (fun t ht => himp t (List.mem_cons_of_mem _ ht))
      have : (if q x then 1 else 0) ≤ (if p x then 1 else 0) := by
        by_cases hq : q x
        · rw [if_pos hq, if_pos (himp x (List.mem_cons_self x xs) hq)]
        · rw [if_neg hq]; omega
      omega

lemma listMin_mem : ∀ {l : List ℚ} {m : ℚ}, listMin l = some m → m ∈ l := by
  intro l
  induction l with
  | nil => intro m h; simp [listMin] at h
  | cons x xs ih =>
    intro m h
    rw [listMin] at h
    cases hxs : listMin xs with
    | none => rw [hxs] at h; simp at h; simp [h]
    | some m' =>
      rw [hxs] at h
      simp at h
      rcases min_cases x m' with ⟨heq, _⟩ | ⟨heq, _⟩
      · rw [heq] at h; simp [← h]
      · rw [heq] at h
        exact List.mem_cons_of_mem _ (h ▸ ih hxs)

lemma listMin_isSome {l : List ℚ} (h : l ≠ []) : ∃ m, listMin l = some m := by
  cases l with
  | nil => exact absurd rfl h
  | cons x xs =>
    rw [listMin]
    cases listMin xs with
    | none => exact ⟨x, rfl⟩
    | some m => exact ⟨min x m, rfl⟩

lemma limitStep_now_le (cap : Nat) (w jitter : ℚ) (rp : Bool) (ts : List ℚ)
    (now : ℚ) (hj : 0 ≤ jitter) :
    now ≤ (limitStep cap w jitter rp ts now).now := by
  unfold limitStep
  by_cases hc : cap ≤ countInWindow ts now w
  · rw [if_pos hc]
    cases hmin : listMin (ts.filter (fun t => decide (now - w < t))) with
    | none => simp
    | some oldest =>
      simp only
      have hmem := listMin_mem hmin
      have := (List.mem_filter.mp hmem).2
      simp only [decide_eq_true_eq] at this
      linarith
  · rw [if_neg hc]

/-- Any window count can only shrink across a limit check (the check never
adds timestamps and the clock only advances). -/
lemma limitStep_count_le (cap : Nat) (w jitter w2 : ℚ) (rp : Bool)
    (ts : List ℚ) (now : ℚ) (hj : 0 ≤ jitter) :
    countInWindow (limitStep cap w jitter rp ts now).ts
        (limitStep cap w jitter rp ts now).now w2 ≤
      countInWindow ts now w2 := by
  unfold limitStep
  by_cases hc : cap ≤ countInWindow ts now w
  · rw [if_pos hc]
    cases hmin : listMin (ts.filter (fun t => decide (now - w < t))) with
    | none => simp
    | some oldest =>
      simp only
      have hmem := listMin_mem hmin
      have hold := (List.mem_filter.mp hmem).2
      simp only [decide_eq_true_eq] at hold
      have hnow : now ≤ now + (oldest + w - now + jitter) := by linarith
      calc countInWindow (if rp then prune ts (now + (oldest + w - now + jitter)) else ts)
              (now + (oldest + w - now + jitter)) w2
          ≤ countInWindow ts (now + (oldest + w - now + jitter)) w2 := by
            cases rp
            · simp
            · simp only [if_pos]
              exact countInWindow_filter_le ts _ _ w2
        _ ≤ countInWindow ts now w2 := countInWindow_mono_now ts _ _ w2 hnow
  · rw [if_neg hc]

/-- The limit check's own window is strictly below the cap afterwards,
provided it was at most the cap before. -/
lemma limitStep_cap (cap : Nat) (w jitter : ℚ) (rp : Bool) (ts : List ℚ)
    (now : ℚ) (hj : 0 ≤ jitter) (hcap : 1 ≤ cap)
    (hpre : countInWindow ts now w ≤ cap) :
    countInWindow (limitStep cap w jitter rp ts now).ts
        (limitStep cap w jitter rp ts now).now w ≤ cap - 1 := by
  unfold limitStep
  by_cases hc : cap ≤ countInWindow ts now w
  · rw [if_pos hc]
    have hfilter_ne : ts.filter (fun t => decide (now - w < t)) ≠ [] := by
      intro hnil
      have : countInWindow ts now w = 0 := by
        unfold countInWindow
        rw [List.countP_eq_length_filter, hnil]
        rfl
      omega
    obtain ⟨oldest, hmin⟩ := listMin_isSome hfilter_ne
    rw [hmin]
    simp only
    have hmem := listMin_mem hmin
    have hold := (List.mem_filter.mp hmem).2
    have holdts := (List.mem_filter.mp hmem).1
    simp only [decide_eq_true_eq] at hold
    have hstrict :
        countInWindow ts (now + (oldest + w - now + jitter)) w <
          countInWindow ts now w := by
      apply countP_lt_of_witness oldest holdts
      · simp only [decide_eq_true_eq]; exact hold
      · simp only [decide_eq_false_iff_not, not_lt]; linarith
      · intro t _ ht
        simp only [decide_eq_true_eq] at ht ⊢
        linarith
    have hchain :
        countInWindow (if rp then prune ts (now + (oldest + w - now + jitter)) else ts)
            (now + (oldest + w - now + jitter)) w ≤
          countInWindow ts (now + (oldest + w - now + jitter)) w := by
      cases rp
      · simp
      · simp only [if_pos]
        exact countInWindow_filter_le ts _ _ w
    omega
  · rw [if_neg hc]
    dsimp only
    omega

lemma countInWindow_append_now (ts : List ℚ) (now w : ℚ) (hw : 0 < w) :
    countInWindow (ts ++ [now]) now w = countInWindow ts now w + 1 := by
  unfold countInWindow
  rw [List.countP_append]
  have : (([now] : List ℚ).countP fun t => decide (now - w < t)) = 1 := by
    simp only [List.countP_cons, List.countP_nil]
    rw [if_pos (by simp only [decide_eq_true_eq]; linarith)]
  rw [this]

/-- `acquire` preserves the window caps invariant. -/
lemma acquire_preserves (rl : RateLimiterState) (now jd jh jm : ℚ)
    (hm : 1 ≤ rl.maxPerMinute) (hh : 1 ≤ rl.maxPerHour) (hd : 1 ≤ rl.maxPerDay)
    (hjd : 0 ≤ jd) (hjh : 0 ≤ jh) (hjm : 0 ≤ jm)
    (hpre : withinCaps rl now) :
    withinCaps (acquire rl now jd jh jm).1 (acquire rl now jd jh jm).2.1 := by
  obtain ⟨hpm, hph, hpd⟩ := hpre
  have h0m : countInWindow (prune rl.timestamps now) now 60 ≤ rl.maxPerMinute :=
    le_trans (countInWindow_filter_le _ _ _ _) hpm
  have h0h : countInWindow (prune rl.timestamps now) now 3600 ≤ rl.maxPerHour :=
    le_trans (countInWindow_filter_le _ _ _ _) hph
  have h0d : countInWindow (prune rl.timestamps now) now 86400 ≤ rl.maxPerDay :=
    le_trans (countInWindow_filter_le _ _ _ _) hpd
  set ts0 := prune rl.timestamps now with hts0
  set s1 := limitStep rl.maxPerDay 86400 jd true ts0 now with hs1
  set s2 := limitStep rl.maxPerHour 3600 jh true s1.ts s1.now with hs2
  set s3 := limitStep rl.maxPerMinute 60 jm false s2.ts s2.now with hs3
  have h1d : countInWindow s1.ts s1.now 86400 ≤ rl.maxPerDay - 1 :=
    limitStep_cap _ _ _ _ _ _ hjd hd h0d
  have h1h : countInWindow s1.ts s1.now 3600 ≤ rl.maxPerHour :=
    le_trans (limitStep_count_le _ _ _ _ _ _ _ hjd) h0h
  have h1m : countInWindow s1.ts s1.now 60 ≤ rl.maxPerMinute :=
    le_trans (limitStep_count_le _ _ _ _ _ _ _ hjd) h0m
  have h2h : countInWindow s2.ts s2.now 3600 ≤ rl.maxPerHour - 1 :=
    limitStep_cap _ _ _ _ _ _ hjh hh h1h
  have h2d : countInWindow s2.ts s2.now 86400 ≤ rl.maxPerDay - 1 :=
    le_trans (limitStep_count_le _ _ _ _ _ _ _ hjh) h1d
  have h2m : countInWindow s2.ts s2.now 60 ≤ rl.maxPerMinute :=
    le_trans (limitStep_count_le _ _ _ _ _ _ _ hjh) h1m
  have h3m : countInWindow s3.ts s3.now 60 ≤ rl.maxPerMinute - 1 :=
    limitStep_cap _ _ _ _ _ _ hjm hm h2m
  have h3h : countInWindow s3.ts s3.now 3600 ≤ rl.maxPerHour - 1 :=
    le_trans (limitStep_count_le _ _ _ _ _ _ _ hjm) h2h
  have h3d : countInWindow s3.ts s3.now 86400 ≤ rl.maxPerDay - 1 :=
    le_trans (limitStep_count_le _ _ _ _ _ _ _ hjm) h2d
  show withinCaps { rl with timestamps := s3.ts ++ [s3.now] } s3.now
  unfold withinCaps
  dsimp only
  refine ⟨?_, ?_, ?_⟩
  · rw [countInWindow_append_now s3.ts s3.now 60 (by norm_num)]; omega
  · rw [countInWindow_append_now s3.ts s3.now 3600 (by norm_num)]; omega
  · rw [countInWindow_append_now s3.ts s3.now 86400 (by norm_num)]; omega

/-- Helper: invariant transported along a single `LimiterStep`. -/
lemma limiterStep_preserves {a b : RateLimiterState × ℚ}
    (hstep : LimiterStep a b)
    (hm : 1 ≤ a.1.maxPerMinute) (hh : 1 ≤ a.1.maxPerHour)
    (hd : 1 ≤ a.1.maxPerDay) (hpre : withinCaps a.1 a.2) :
    withinCaps b.1 b.2 ∧ b.1.maxPerMinute = a.1.maxPerMinute ∧
      b.1.maxPerHour = a.1.maxPerHour ∧ b.1.maxPerDay = a.1.maxPerDay := by
  cases hstep with
  | advance rl nowa d hdd =>
    dsimp only at hpre ⊢
    refine ⟨⟨?_, ?_, ?_⟩, rfl, rfl, rfl⟩
    · exact le_trans (countInWindow_mono_now _ nowa _ _ (by linarith)) hpre.1
    · exact le_trans (countInWindow_mono_now _ nowa _ _ (by linarith)) hpre.2.1
    · exact le_trans (countInWindow_mono_now _ nowa _ _ (by linarith)) hpre.2.2
  | acq rl nowa jd jh jm hjd hjh hjm =>
    refine ⟨acquire_preserves rl nowa jd jh jm hm hh hd hjd hjh hjm hpre,
      rfl, rfl, rfl⟩

/-- C1: for every sequence of `acquire` calls, interleaved with arbitrary
clock advances, at every moment after an `acquire` returns (and between
calls) the number of recorded timestamps in the trailing 60 s / 3600 s /
86400 s window is at most `max_per_minute` / `max_per_hour` / `max_per_day`
(in particular for the defaults 8 / 40 / 200).  States reachable from a
fresh limiter by `LimiterStep` satisfy `withinCaps`. -/
theorem c1_rate_limiter_invariant (rl0 : RateLimiterState) (t0 : ℚ)
    (rl : RateLimiterState) (now : ℚ)
    (hm : 1 ≤ rl0.maxPerMinute) (hh : 1 ≤ rl0.maxPerHour)
    (hd : 1 ≤ rl0.maxPerDay) (hinit : rl0.timestamps = [])
    (hreach : Relation.ReflTransGen LimiterStep (rl0, t0) (rl, now)) :
    withinCaps rl now := by
  have key : ∀ p : RateLimiterState × ℚ,
      Relation.ReflTransGen LimiterStep (rl0, t0) p →
      withinCaps p.1 p.2 ∧ p.1.maxPerMinute = rl0.maxPerMinute ∧
        p.1.maxPerHour = rl0.maxPerHour ∧ p.1.maxPerDay = rl0.maxPerDay := by
    intro p hp
    induction hp with
    | refl =>
      refine ⟨⟨?_, ?_, ?_⟩, rfl, rfl, rfl⟩ <;>
        simp [countInWindow, hinit]
    | tail _ hstep ih =>
      obtain ⟨hw, h1, h2, h3⟩ := ih
      have hnext := limiterStep_preserves hstep (by omega) (by omega) (by omega) hw
      exact ⟨hnext.1, hnext.2.1.trans h1, hnext.2.2.1.trans h2, hnext.2.2.2.trans h3⟩
  exact (key (rl, now) hreach).1

/-- C1 (witness): starting from a fresh limiter with the default caps at
time 0, one `acquire` call (all jitters 0) records timestamp 0 and the
invariant holds at the resulting state. -/
theorem c1_rate_limiter_invariant_witness :
    withinCaps ⟨8, 40, 200, [(0:ℚ)]⟩ 0 := by
  have hacq : ((acquire ⟨8, 40, 200, []⟩ 0 0 0 0).1,
      (acquire ⟨8, 40, 200, []⟩ 0 0 0 0).2.1) =
      ((⟨8, 40, 200, [(0:ℚ)]⟩ : RateLimiterState), (0:ℚ)) := by decide
  have hstep : LimiterStep (⟨8, 40, 200, []⟩, 0) (⟨8, 40, 200, [(0:ℚ)]⟩, 0) := by
    have h := LimiterStep.acq ⟨8, 40, 200, []⟩ 0 0 0 0 le_rfl le_rfl le_rfl
    rwa [hacq] at h
  exact c1_rate_limiter_invariant ⟨8, 40, 200, []⟩ 0 ⟨8, 40, 200, [(0:ℚ)]⟩ 0
    (by decide) (by decide) (by decide) rfl (Relation.ReflTransGen.single hstep)

lemma countInWindow_prune (ts : List ℚ) (now w : ℚ) (hw : w ≤ 86400) :
    countInWindow (prune ts now) now w = countInWindow ts now w := by
  unfold countInWindow prune
  rw [List.countP_filter]
  apply List.countP_congr
  intro t _
  by_cases h : now - w < t
  · rw [decide_eq_true h, decide_eq_true (by linarith : now - 86400 < t)]
    rfl
  · rw [decide_eq_false h]
    rfl

/-- C9 (counterexample): `stats` is not read-only on the recorded timestamp
sequence: it runs `_prune`, so on a limiter holding one timestamp older
than 24 hours the sequence changes from `[0]` to `[]`. -/
theorem c9_stats_counterexample :
    (stats ⟨8, 40, 200, [(0:ℚ)]⟩ 100000).2.timestamps ≠
      (⟨8, 40, 200, [(0:ℚ)]⟩ : RateLimiterState).timestamps := by
  have h : (stats ⟨8, 40, 200, [(0:ℚ)]⟩ 100000).2.timestamps = [] := by
    show prune [(0:ℚ)] 100000 = []
    norm_num [prune, List.filter]
  rw [h]
  simp

/-- C9 (amended): `stats` returns exactly the counts of recorded timestamps
in the trailing 60 s / 3600 s / 86400 s windows of the pre-call state, and
its only state change is the same pruning `acquire` performs: the new
timestamp list is the old one with entries older than 86400 s removed, so
every timestamp inside the 86400 s window (and all configured caps) is
preserved. -/
theorem c9_stats_amended (rl : RateLimiterState) (now : ℚ) :
    (stats rl now).1 =
      (countInWindow rl.timestamps now 60, countInWindow rl.timestamps now 3600,
       countInWindow rl.timestamps now 86400) ∧
    (stats rl now).2.timestamps = prune rl.timestamps now ∧
    (∀ t ∈ rl.timestamps, now - 86400 < t → t ∈ (stats rl now).2.timestamps) ∧
    (stats rl now).2.maxPerMinute = rl.maxPerMinute ∧
    (stats rl now).2.maxPerHour = rl.maxPerHour ∧
    (stats rl now).2.maxPerDay = rl.maxPerDay := by
  refine ⟨?_, rfl, ?_, rfl, rfl, rfl⟩
  · show (countInWindow (prune rl.timestamps now) now 60,
        countInWindow (prune rl.timestamps now) now 3600,
        countInWindow (prune rl.timestamps now) now 86400) = _
    rw [countInWindow_prune _ _ _ (by norm_num),
      countInWindow_prune _ _ _ (by norm_num),
      countInWindow_prune _ _ _ (by norm_num)]
  · intro t ht hlt
    show t ∈ prune rl.timestamps now
    exact List.mem_filter.mpr ⟨ht, decide_eq_true hlt⟩

/-! ## Delivery loop lemmas and claims C3, C4, C10 -/

lemma runParts_ok_skip (env : DeliverEnv) (total : Nat)
    (pre : List (List Char)) :
    ∀ (rest : List (List Char)) (i : Nat),
    (∀ j, i ≤ j → j < i + pre.length → env.sendOutcome j 0 = .ok) →
    (∀ j, i ≤ j → j < i + pre.length → 0 < j → env.flagSet j = false) →
    runParts env total i (pre ++ rest) =
      ⟨((List.range' i pre.length).map (okIter total)).flatten ++
         (runParts env total (i + pre.length) rest).trace,
       List.range' i pre.length ++ (runParts env total (i + pre.length) rest).sent,
       (runParts env total (i + pre.length) rest).state⟩ := by
  induction pre with
  | nil =>
    intro rest i _ _
    simp [List.range']
  | cons p ps ih =>
    intro rest i hok hflag
    have hlen : (p :: ps).length = ps.length + 1 := rfl
    have hnoflag : ¬ (0 < i ∧ env.flagSet i = true) := by
      rintro ⟨hi, hfl⟩
      have := hflag i le_rfl (by omega) hi
      rw [this] at hfl
      cases hfl
    have hoki : env.sendOutcome i 0 = .ok := hok i le_rfl (by omega)
    show runParts env total i (p :: (ps ++ rest)) = _
    rw [runParts, if_neg hnoflag, hoki]
    have hrec := ih rest (i + 1)
      (fun j h1 h2 => hok j (by omega) (by omega))
      (fun j h1 h2 h3 => hflag j (by omega) (by omega) h3)
    rw [hrec]
    have hrange : List.range' i (p :: ps).length = i :: List.range' (i + 1) ps.length := by
      rw [hlen, List.range'_succ]
    rw [hrange]
    have harith : i + (p :: ps).length = (i + 1) + ps.length := by
      rw [hlen]; omega
    rw [harith]
    simp only [List.map_cons, List.flatten_cons, okIter, List.cons_append,
      List.nil_append, List.append_assoc]

/-- If the first `i` parts all send successfully on the first attempt and no
interrupt flag is observed before part `i`, the loop's outcome decomposes
as `i` successful iterations followed by the loop restarted at part `i`. -/
lemma runParts_reach (env : DeliverEnv) (total : Nat)
    (parts : List (List Char)) (i : Nat)
    (hi : i ≤ parts.length)
    (hok : ∀ j, j < i → env.sendOutcome j 0 = .ok)
    (hflag : ∀ j, 1 ≤ j → j < i → env.flagSet j = false) :
    runParts env total 0 parts =
      ⟨((List.range' 0 i).map (okIter total)).flatten ++
         (runParts env total i (parts.drop i)).trace,
       List.range' 0 i ++ (runParts env total i (parts.drop i)).sent,
       (runParts env total i (parts.drop i)).state⟩ := by
  have hlen : (parts.take i).length = i := by
    rw [List.length_take]
    omega
  have hsplit : parts = parts.take i ++ parts.drop i :=
    (List.take_append_drop i parts).symm
  conv_lhs => rw [hsplit]
  rw [runParts_ok_skip env total (parts.take i) (parts.drop i) 0
    (fun j h1 h2 => hok j (by omega))
    (fun j h1 h2 h3 => hflag j (by omega) (by omega))]
  rw [hlen]
  simp only [Nat.zero_add]

/-- C3: during delivery the interrupt flag is checked only before parts
after the first (the check is guarded by `i > 0`), so the first part is
always sent even if the flag is set from the start; and if the flag is
observed set at the boundary before part `k` (`1 ≤ k`), exactly the parts
`0, …, k-1` are sent, the loop stops immediately in the `Interrupted`
state, and parts `k, …` remain unsent. -/
theorem c3_interrupt_check_boundaries (env : DeliverEnv)
    (parts : List (List Char)) (k : Nat)
    (hok : ∀ j a, env.sendOutcome j a = .ok)
    (hk1 : 1 ≤ k) (hk2 : k < parts.length)
    (hflagk : env.flagSet k = true)
    (hflag : ∀ j, 1 ≤ j → j < k → env.flagSet j = false) :
    (runParts env parts.length 0 parts).sent = List.range k ∧
    (runParts env parts.length 0 parts).state = .Interrupted := by
  have hreach := runParts_reach env parts.length parts k (le_of_lt hk2)
    (fun j _ => hok j 0) hflag
  have hdrop : parts.drop k = parts[k] :: parts.drop (k + 1) :=
    List.drop_eq_getElem_cons hk2
  have hstep : runParts env parts.length k (parts.drop k) =
      ⟨[], [], .Interrupted⟩ := by
    rw [hdrop, runParts, if_pos ⟨hk1, hflagk⟩]
  rw [hreach, hstep]
  constructor
  · show List.range' 0 k ++ [] = List.range k
    rw [List.append_nil, List.range_eq_range']
  · rfl

/-- C3 (witness): a 4-part delivery, all sends succeeding, with the
counterparty's interrupt flag set at every boundary (including before part
0, where it is ignored): exactly part 0 is sent and the delivery ends
`Interrupted`. -/
theorem c3_interrupt_check_boundaries_witness :
    (runParts ⟨fun _ => true, fun _ _ => .ok⟩ 4 0
        [['a'], ['b'], ['c'], ['d']]).sent = List.range 1 ∧
    (runParts ⟨fun _ => true, fun _ _ => .ok⟩ 4 0
        [['a'], ['b'], ['c'], ['d']]).state = .Interrupted :=
  c3_interrupt_check_boundaries ⟨fun _ => true, fun _ _ => .ok⟩
    [['a'], ['b'], ['c'], ['d']] 1 (fun _ _ => rfl) (by decide) (by decide)
    rfl (fun j h1 h2 => absurd (lt_of_le_of_lt h1 h2) (lt_irrefl 1))

lemma countP_flatten_map_range' (p : Ev → Bool) (f : Nat → List Ev) (c : Nat) :
    ∀ (n s : Nat), (∀ j, s ≤ j → j < s + n → (f j).countP p = c) →
      (((List.range' s n).map f).flatten).countP p = c * n := by
  intro n
  induction n with
  | zero => intro s _; simp
  | succ m ih =>
    intro s h
    rw [List.range'_succ, List.map_cons, List.flatten_cons, List.countP_append,
      h s le_rfl (by omega), ih (s + 1) (fun j h1 h2 => h j (by omega) (by omega)),
      Nat.mul_succ]
    omega

lemma okIter_countP_sendOf (total i tgt : Nat) (h : i ≠ tgt) :
    (okIter total i).countP (isSendOf tgt) = 0 := by
  unfold okIter
  by_cases hlt : i < total - 1 <;>
    simp [hlt, isSendOf, List.countP_cons, List.countP_append, h]

lemma okIter_countP_acquire (total i : Nat) :
    (okIter total i).countP isAcquire = 1 := by
  unfold okIter
  by_cases hlt : i < total - 1 <;>
    simp [hlt, isAcquire, List.countP_cons, List.countP_append]

lemma okIter_countP_typing (total i : Nat) :
    (okIter total i).countP isTyping = 1 := by
  unfold okIter
  by_cases hlt : i < total - 1 <;>
    simp [hlt, isTyping, List.countP_cons, List.countP_append]

lemma prefix_send_lt (total i j a : Nat)
    (h : Ev.send j a ∈ ((List.range' 0 i).map (okIter total)).flatten) :
    j < i := by
  rw [List.mem_flatten] at h
  obtain ⟨l, hl, hmem⟩ := h
  rw [List.mem_map] at hl
  obtain ⟨m, hm, rfl⟩ := hl
  have hm2 : m < i := by
    have := List.mem_range'_1.mp hm
    omega
  unfold okIter at hmem
  rcases List.mem_append.mp hmem with h1 | h2
  · simp only [List.mem_cons, List.not_mem_nil, or_false] at h1
    rcases h1 with h | h | h
    · cases h
    · cases h
    · injection h with hj ha
      omega
  · by_cases hlt : m < total - 1
    · rw [if_pos hlt] at h2
      simp only [List.mem_cons, List.not_mem_nil, or_false] at h2
      cases h2
    · rw [if_neg hlt] at h2
      cases h2

lemma runParts_send_ge (env : DeliverEnv) (total : Nat) :
    ∀ (parts : List (List Char)) (i j a : Nat),
    Ev.send j a ∈ (runParts env total i parts).trace → i ≤ j := by
  intro parts
  induction parts with
  | nil =>
    intro i j a h
    rw [runParts] at h
    cases h
  | cons p ps ih =>
    intro i j a h
    rw [runParts] at h
    by_cases hfl : 0 < i ∧ env.flagSet i = true
    · rw [if_pos hfl] at h
      cases h
    · rw [if_neg hfl] at h
      cases hout : env.sendOutcome i 0 with
      | ok =>
        rw [hout] at h
        dsimp only at h
        simp only [List.cons_append, List.nil_append, List.mem_cons] at h
        rcases h with h | h | h | h
        · cases h
        · cases h
        · injection h with hj ha
          omega
        · rcases List.mem_append.mp h with h1 | h2
          · by_cases hlt : i < total - 1
            · rw [if_pos hlt] at h1
              simp only [List.mem_cons, List.not_mem_nil, or_false] at h1
              cases h1
            · rw [if_neg hlt] at h1
              cases h1
          · have := ih (i + 1) j a h2
            omega
      | floodWait s =>
        rw [hout] at h
        dsimp only at h
        cases hout1 : env.sendOutcome i 1 with
        | ok =>
          rw [hout1] at h
          dsimp only at h
          simp only [List.cons_append, List.nil_append, List.mem_cons,
            List.not_mem_nil, or_false] at h
          rcases h with h | h | h | h | h | h
          · cases h
          · cases h
          · injection h with hj ha; omega
          · cases h
          · injection h with hj ha; omega
          · have := ih (i + 1) j a h
            omega
        | floodWait s2 =>
          rw [hout1] at h
          dsimp only at h
          simp only [List.mem_cons, List.not_mem_nil, or_false] at h
          rcases h with h | h | h | h | h
          · cases h
          · cases h
          · injection h with hj ha; omega
          · cases h
          · injection h with hj ha; omega
        | peerInvalid =>
          rw [hout1] at h
          dsimp only at h
          simp only [List.mem_cons, List.not_mem_nil, or_false] at h
          rcases h with h | h | h | h | h
          · cases h
          · cases h
          · injection h with hj ha; omega
          · cases h
          · injection h with hj ha; omega
        | otherError =>
          rw [hout1] at h
          dsimp only at h
          simp only [List.mem_cons, List.not_mem_nil, or_false] at h
          rcases h with h | h | h | h | h
          · cases h
          · cases h
          · injection h with hj ha; omega
          · cases h
          · injection h with hj ha; omega
      | peerInvalid =>
        rw [hout] at h
        dsimp only at h
        simp only [List.mem_cons, List.not_mem_nil, or_false] at h
        rcases h with h | h | h
        · cases h
        · cases h
        · injection h with hj ha; omega
      | otherError =>
        rw [hout] at h
        dsimp only at h
        simp only [List.mem_cons, List.not_mem_nil, or_false] at h
        rcases h with h | h | h
        · cases h
        · cases h
        · injection h with hj ha; omega

/-- Reaching part `i` with a flood-wait on its first attempt: full
characterisation of the loop outcome in terms of the retry's result. -/
lemma runParts_reach_flood (env : DeliverEnv) (parts : List (List Char))
    (i s : Nat) (hi : i < parts.length)
    (hok : ∀ j, j < i → env.sendOutcome j 0 = .ok)
    (hflag : ∀ j, 1 ≤ j → j ≤ i → env.flagSet j = false)
    (hfl : env.sendOutcome i 0 = .floodWait s) :
    (env.sendOutcome i 1 = .ok →
      runParts env parts.length 0 parts =
        ⟨((List.range' 0 i).map (okIter parts.length)).flatten ++
           ([Ev.acquireLimiter, Ev.typingSim, Ev.send i 0, Ev.floodSleep s,
              Ev.send i 1] ++
             (runParts env parts.length (i + 1) (parts.drop (i + 1))).trace),
         List.range' 0 i ++
           i :: (runParts env parts.length (i + 1) (parts.drop (i + 1))).sent,
         (runParts env parts.length (i + 1) (parts.drop (i + 1))).state⟩) ∧
    (env.sendOutcome i 1 ≠ .ok →
      runParts env parts.length 0 parts =
        ⟨((List.range' 0 i).map (okIter parts.length)).flatten ++
           [Ev.acquireLimiter, Ev.typingSim, Ev.send i 0, Ev.floodSleep s,
            Ev.send i 1],
         List.range' 0 i, .Failed⟩) := by
  have hreach := runParts_reach env parts.length parts i (le_of_lt hi) hok
    (fun j h1 h2 => hflag j h1 (by omega))
  have hdrop : parts.drop i = parts[i] :: parts.drop (i + 1) :=
    List.drop_eq_getElem_cons hi
  have hnoflag : ¬ (0 < i ∧ env.flagSet i = true) := by
    rintro ⟨h1, h2⟩
    rw [hflag i h1 le_rfl] at h2
    cases h2
  constructor
  · intro hro
    rw [hreach]
    have hstep : runParts env parts.length i (parts.drop i) =
        ⟨[Ev.acquireLimiter, Ev.typingSim, Ev.send i 0, Ev.floodSleep s,
            Ev.send i 1] ++
           (runParts env parts.length (i + 1) (parts.drop (i + 1))).trace,
         i :: (runParts env parts.length (i + 1) (parts.drop (i + 1))).sent,
         (runParts env parts.length (i + 1) (parts.drop (i + 1))).state⟩ := by
      rw [hdrop, runParts, if_neg hnoflag, hfl, hro]
    rw [hstep]
  · intro hro
    rw [hreach]
    have hstep : runParts env parts.length i (parts.drop i) =
        ⟨[Ev.acquireLimiter, Ev.typingSim, Ev.send i 0, Ev.floodSleep s,
            Ev.send i 1], [], .Failed⟩ := by
      rw [hdrop, runParts, if_neg hnoflag, hfl]
      cases hout : env.sendOutcome i 1 with
      | ok => exact absurd hout hro
      | floodWait s2 => rfl
      | peerInvalid => rfl
      | otherError => rfl
    rw [hstep]
    simp

/-- C4: if part `i` is reached (all earlier parts sent, no interrupt) and
its first send raises a flood-control error carrying `s` seconds, the loop
sleeps exactly `s` and immediately retries that same part — the trace
contains the contiguous block `send i 0, floodSleep s, send i 1` and part
`i` is sent exactly twice in total (one retry); if the retry succeeds the
loop continues with part `i+1` and part `i` counts as sent; if the retry
fails the delivery reports `Failed`, the already-sent parts `0…i-1` are
kept (not undone), and no later part is ever sent. -/
theorem c4_flood_retry_once (env : DeliverEnv) (parts : List (List Char))
    (i s : Nat) (hi : i < parts.length)
    (hok : ∀ j, j < i → env.sendOutcome j 0 = .ok)
    (hflag : ∀ j, 1 ≤ j → j ≤ i → env.flagSet j = false)
    (hfl : env.sendOutcome i 0 = .floodWait s) :
    (∃ pre post, (runParts env parts.length 0 parts).trace =
        pre ++ [Ev.send i 0, Ev.floodSleep s, Ev.send i 1] ++ post) ∧
    (runParts env parts.length 0 parts).trace.countP (isSendOf i) = 2 ∧
    (env.sendOutcome i 1 = .ok →
      (runParts env parts.length 0 parts).sent =
        List.range' 0 i ++
          i :: (runParts env parts.length (i + 1) (parts.drop (i + 1))).sent) ∧
    (env.sendOutcome i 1 ≠ .ok →
      (runParts env parts.length 0 parts).state = .Failed ∧
      (runParts env parts.length 0 parts).sent = List.range' 0 i ∧
      ∀ j a, i < j → Ev.send j a ∉ (runParts env parts.length 0 parts).trace) := by
  obtain ⟨hcase1, hcase2⟩ := runParts_reach_flood env parts i s hi hok hflag hfl
  have hA : (((List.range' 0 i).map (okIter parts.length)).flatten).countP
      (isSendOf i) = 0 := by
    have := countP_flatten_map_range' (isSendOf i) (okIter parts.length) 0 i 0
      (fun j h1 h2 => okIter_countP_sendOf parts.length j i (by omega))
    simpa using this
  have hmid : ([Ev.acquireLimiter, Ev.typingSim, Ev.send i 0, Ev.floodSleep s,
      Ev.send i 1] : List Ev).countP (isSendOf i) = 2 := by
    simp [List.countP_cons, isSendOf]
  by_cases hro : env.sendOutcome i 1 = .ok
  · have heq := hcase1 hro
    have htail : (runParts env parts.length (i + 1)
        (parts.drop (i + 1))).trace.countP (isSendOf i) = 0 := by
      rw [List.countP_eq_zero]
      intro e he
      cases e with
      | send j a =>
        have hge := runParts_send_ge env parts.length (parts.drop (i + 1))
          (i + 1) j a he
        simp only [isSendOf, decide_eq_true_eq]
        omega
      | acquireLimiter => simp [isSendOf]
      | typingSim => simp [isSendOf]
      | floodSleep s2 => simp [isSendOf]
      | interPartSleep => simp [isSendOf]
    refine ⟨?_, ?_, fun _ => ?_, fun hc => absurd hro hc⟩
    · refine ⟨((List.range' 0 i).map (okIter parts.length)).flatten ++
        [Ev.acquireLimiter, Ev.typingSim],
        (runParts env parts.length (i + 1) (parts.drop (i + 1))).trace, ?_⟩
      rw [heq]
      simp [List.append_assoc]
    · rw [heq]
      dsimp only
      rw [List.countP_append, List.countP_append, hA, hmid, htail]
    · rw [heq]
  · have heq := hcase2 hro
    refine ⟨?_, ?_, fun hc => absurd hc hro, fun _ => ⟨?_, ?_, ?_⟩⟩
    · refine ⟨((List.range' 0 i).map (okIter parts.length)).flatten ++
        [Ev.acquireLimiter, Ev.typingSim], [], ?_⟩
      rw [heq]
      simp [List.append_assoc]
    · rw [heq]
      dsimp only
      rw [List.countP_append, hA, hmid]
    · rw [heq]
    · rw [heq]
    · rw [heq]
      dsimp only
      intro j a hj hmem
      rcases List.mem_append.mp hmem with h1 | h2
      · have := prefix_send_lt parts.length i j a h1
        omega
      · simp only [List.mem_cons, List.not_mem_nil, or_false] at h2
        rcases h2 with h | h | h | h | h
        · cases h
        · cases h
        · injection h with hj2 ha2; omega
        · cases h
        · injection h with hj2 ha2; omega

/-- C4 (witness): a two-part delivery whose part 0 fails once with a
5-second flood signal and then succeeds on the bare retry: part 0 is sent
exactly twice (one retry). -/
theorem c4_flood_retry_once_witness :
    (runParts ⟨fun _ => false,
        fun _ a => if a = 0 then SendResult.floodWait 5 else SendResult.ok⟩
      2 0 [['a'], ['b']]).trace.countP (isSendOf 0) = 2 :=
  (c4_flood_retry_once
    ⟨fun _ => false,
      fun _ a => if a = 0 then SendResult.floodWait 5 else SendResult.ok⟩
    [['a'], ['b']] 0 5 (by decide)
    (fun j hj => absurd hj (Nat.not_lt_zero j))
    (fun j h1 h2 => absurd (h1.trans h2) (by decide))
    (by decide)).2.1

/-- C10: on the flood-control retry path the single retry send goes
directly to the platform: in the trace the failed first send, the flood
sleep and the retry send are contiguous (`send i 0, floodSleep s,
send i 1` with nothing in between), and every `RateLimiter.acquire` call
and every typing simulation of the delivery so far (exactly `i + 1` of
each, one per loop iteration entered) happened before the failed first
send — so the limiter state is unchanged between the failed send of a part
and its retry, and no typing simulation precedes the retry. -/
theorem c10_flood_retry_bypasses_limiter (env : DeliverEnv)
    (parts : List (List Char)) (i s : Nat) (hi : i < parts.length)
    (hok : ∀ j, j < i → env.sendOutcome j 0 = .ok)
    (hflag : ∀ j, 1 ≤ j → j ≤ i → env.flagSet j = false)
    (hfl : env.sendOutcome i 0 = .floodWait s) :
    ∃ pre post, (runParts env parts.length 0 parts).trace =
        pre ++ [Ev.send i 0, Ev.floodSleep s, Ev.send i 1] ++ post ∧
      pre.countP isAcquire = i + 1 ∧ pre.countP isTyping = i + 1 := by
  obtain ⟨hcase1, hcase2⟩ := runParts_reach_flood env parts i s hi hok hflag hfl
  have hA_acq : (((List.range' 0 i).map (okIter parts.length)).flatten).countP
      isAcquire = i := by
    have := countP_flatten_map_range' isAcquire (okIter parts.length) 1 i 0
      (fun j _ _ => okIter_countP_acquire parts.length j)
    simpa using this
  have hA_typ : (((List.range' 0 i).map (okIter parts.length)).flatten).countP
      isTyping = i := by
    have := countP_flatten_map_range' isTyping (okIter parts.length) 1 i 0
      (fun j _ _ => okIter_countP_typing parts.length j)
    simpa using this
  have hpre_acq : ((((List.range' 0 i).map (okIter parts.length)).flatten) ++
      [Ev.acquireLimiter, Ev.typingSim]).countP isAcquire = i + 1 := by
    rw [List.countP_append, hA_acq]
    simp [isAcquire, List.countP_cons]
  have hpre_typ : ((((List.range' 0 i).map (okIter parts.length)).flatten) ++
      [Ev.acquireLimiter, Ev.typingSim]).countP isTyping = i + 1 := by
    rw [List.countP_append, hA_typ]
    simp [isTyping, List.countP_cons]
  by_cases hro : env.sendOutcome i 1 = .ok
  · refine ⟨((List.range' 0 i).map (okIter parts.length)).flatten ++
      [Ev.acquireLimiter, Ev.typingSim],
      (runParts env parts.length (i + 1) (parts.drop (i + 1))).trace,
      ?_, hpre_acq, hpre_typ⟩
    rw [hcase1 hro]
    simp [List.append_assoc]
  · refine ⟨((List.range' 0 i).map (okIter parts.length)).flatten ++
      [Ev.acquireLimiter, Ev.typingSim], [], ?_, hpre_acq, hpre_typ⟩
    rw [hcase2 hro]
    simp [List.append_assoc]

/-- C10 (witness): a three-part delivery whose part 1 floods (7 s) on its
first attempt: the trace decomposes around the contiguous retry block with
exactly 2 limiter acquires and 2 typing simulations before it. -/
theorem c10_flood_retry_bypasses_limiter_witness :
    ∃ pre post, (runParts ⟨fun _ => false,
        fun j a => if j = 1 ∧ a = 0 then SendResult.floodWait 7 else SendResult.ok⟩
      3 0 [['a'], ['b'], ['c']]).trace =
        pre ++ [Ev.send 1 0, Ev.floodSleep 7, Ev.send 1 1] ++ post ∧
      pre.countP isAcquire = 2 ∧ pre.countP isTyping = 2 :=
  c10_flood_retry_bypasses_limiter
    ⟨fun _ => false,
      fun j a => if j = 1 ∧ a = 0 then SendResult.floodWait 7 else SendResult.ok⟩
    [['a'], ['b'], ['c']] 1 7 (by decide)
    (fun j hj => by
      have hj0 : j = 0 := by omega
      subst hj0
      decide)
    (fun j h1 h2 => rfl)
    (by decide)

/-! ## Handler claim C6 -/

/-- C6: an inbound event whose sender is not in the known-student set and
has no username is rejected before anything happens: `_handle_message`
performs no action at all — in particular no call to the external
response callback, no delivery (hence no platform send), no concurrency
gate acquisition, and no read receipt. -/
theorem c6_unknown_sender_rejected (env : HandlerEnv)
    (h1 : env.senderId ∉ env.knownIds) (h2 : env.username = []) :
    handleMessage env = [] ∧
    HAct.genResponse ∉ handleMessage env ∧
    HAct.deliverResponse ∉ handleMessage env ∧
    HAct.gateAcquire ∉ handleMessage env ∧
    HAct.readAck ∉ handleMessage env := by
  have hmain : handleMessage env = [] := by
    unfold handleMessage
    by_cases hp : ¬ env.isPrivate
    · rw [if_pos hp]
    · rw [if_neg hp]
      by_cases hu : ¬ env.senderIsUser ∨ env.senderIsBot
      · rw [if_pos hu]
      · rw [if_neg hu]
        by_cases ht : env.text.isEmpty
        · rw [if_pos ht]
        · rw [if_neg ht]
          by_cases hc : ¬ env.callbackSet
          · rw [if_pos hc]
          · rw [if_neg hc, if_pos h1, if_pos (by rw [h2]; rfl)]
  refine ⟨hmain, ?_, ?_, ?_, ?_⟩ <;> rw [hmain] <;> exact List.not_mem_nil _

/-- C6 (witness): a concrete unknown sender (id 42, not in the known set
`[7]`) with an empty username: the handler performs no action. -/
theorem c6_unknown_sender_rejected_witness :
    handleMessage ⟨true, true, false, 42, [], ['h', 'i'], true, [7],
        ['o', 'k'], [], 0⟩ = [] ∧
    HAct.genResponse ∉ handleMessage ⟨true, true, false, 42, [], ['h', 'i'],
        true, [7], ['o', 'k'], [], 0⟩ ∧
    HAct.deliverResponse ∉ handleMessage ⟨true, true, false, 42, [],
        ['h', 'i'], true, [7], ['o', 'k'], [], 0⟩ ∧
    HAct.gateAcquire ∉ handleMessage ⟨true, true, false, 42, [], ['h', 'i'],
        true, [7], ['o', 'k'], [], 0⟩ ∧
    HAct.readAck ∉ handleMessage ⟨true, true, false, 42, [], ['h', 'i'],
        true, [7], ['o', 'k'], [], 0⟩ :=
  c6_unknown_sender_rejected
    ⟨true, true, false, 42, [], ['h', 'i'], true, [7], ['o', 'k'], [], 0⟩
    (by decide) rfl

/-! ## Greeting claim C7 -/

lemma sendGreetingFuel_countP_resolve (env : GreetEnv) :
    ∀ (fuel attempt : Nat),
    ((sendGreetingFuel env fuel attempt).1.countP isResolve) ≤ fuel := by
  intro fuel
  induction fuel with
  | zero => intro attempt; simp [sendGreetingFuel]
  | succ m ih =>
    intro attempt
    rw [sendGreetingFuel]
    by_cases hge : MAX_RETRIES ≤ attempt
    · rw [if_pos hge]
      simp
    · rw [if_neg hge]
      cases houtc : env.outcome attempt with
      | success tid => simp [List.countP_cons, isResolve]
      | notFound => simp [List.countP_cons, isResolve]
      | floodWaitG s =>
        dsimp only
        rw [List.countP_cons, List.countP_cons]
        have := ih (attempt + 1)
        simp only [isResolve, if_neg Bool.false_ne_true, if_pos rfl, ite_true]
        omega
      | otherError => simp [List.countP_cons, isResolve]

/-- C7: greeting delivery makes at most `MAX_RETRIES = 3` attempts in
total; when every attempt floods it sleeps exactly the platform-given
duration between consecutive attempts (no exponential backoff) and
returns `none` once the bound is exhausted; and a handle-resolution
failure (unknown username) is never retried — the result is `none` after
the single attempt. -/
theorem c7_greeting_bounded_retry :
    (∀ env : GreetEnv,
      (sendGreetingInternal env 0).1.countP isResolve ≤ 3) ∧
    (∀ (env : GreetEnv) (s0 s1 s2 : Nat),
      env.outcome 0 = .floodWaitG s0 → env.outcome 1 = .floodWaitG s1 →
      env.outcome 2 = .floodWaitG s2 →
      sendGreetingInternal env 0 =
        ([GEv.resolve 0, GEv.floodSleepG s0, GEv.resolve 1, GEv.floodSleepG s1,
          GEv.resolve 2, GEv.floodSleepG s2], none)) ∧
    (∀ env : GreetEnv, env.outcome 0 = .notFound →
      sendGreetingInternal env 0 = ([GEv.resolve 0], none)) := by
  refine ⟨?_, ?_, ?_⟩
  · intro env
    exact sendGreetingFuel_countP_resolve env 3 0
  · intro env s0 s1 s2 h0 h1 h2
    show sendGreetingFuel env 3 0 = _
    rw [show (3 : Nat) = 2 + 1 from rfl, sendGreetingFuel, if_neg (by decide), h0]
    dsimp only
    rw [show (2 : Nat) = 1 + 1 from rfl, sendGreetingFuel, if_neg (by decide), h1]
    dsimp only
    rw [show (1 : Nat) = 0 + 1 from rfl, sendGreetingFuel, if_neg (by decide), h2]
    dsimp only
    rw [sendGreetingFuel]
  · intro env h0
    show sendGreetingFuel env 3 0 = _
    rw [show (3 : Nat) = 2 + 1 from rfl, sendGreetingFuel, if_neg (by decide), h0]

/-- C7 (witness): the three conjuncts instantiated — an all-flood
environment (5 s each time) performs exactly 3 attempts, sleeps 5 s
between consecutive attempts, and returns `none`; a `notFound` outcome is
not retried. -/
theorem c7_greeting_bounded_retry_witness :
    (sendGreetingInternal ⟨fun _ => .floodWaitG 5⟩ 0).1.countP isResolve ≤ 3 ∧
    sendGreetingInternal ⟨fun _ => .floodWaitG 5⟩ 0 =
      ([GEv.resolve 0, GEv.floodSleepG 5, GEv.resolve 1, GEv.floodSleepG 5,
        GEv.resolve 2, GEv.floodSleepG 5], none) ∧
    sendGreetingInternal ⟨fun _ => .notFound⟩ 0 = ([GEv.resolve 0], none) :=
  ⟨c7_greeting_bounded_retry.1 ⟨fun _ => .floodWaitG 5⟩,
   c7_greeting_bounded_retry.2.1 ⟨fun _ => .floodWaitG 5⟩ 5 5 5 rfl rfl rfl,
   c7_greeting_bounded_retry.2.2 ⟨fun _ => .notFound⟩ rfl⟩

/-! ## Splitter lemmas and claims C2, C5 -/

lemma lstrip_cons_neg {c : Char} (t : List Char) (h : isWS c = false) :
    lstripChars (c :: t) = c :: t := by
  simp [lstripChars, List.dropWhile_cons, h]

lemma lstrip_length_le (s : List Char) :
    (lstripChars s).length ≤ s.length := by
  induction s with
  | nil => simp [lstripChars]
  | cons c t ih =>
    by_cases h : isWS c
    · simp only [lstripChars, List.dropWhile_cons, h, if_pos]
      calc (List.dropWhile isWS t).length ≤ t.length := ih
        _ ≤ (c :: t).length := by simp
    · rw [lstrip_cons_neg t (by simpa using h)]

lemma lstrip_fixed_head {c : Char} {t : List Char}
    (h : lstripChars (c :: t) = c :: t) : isWS c = false := by
  by_cases hc : isWS c
  · exfalso
    rw [lstripChars, List.dropWhile_cons, if_pos hc] at h
    have hlen : (List.dropWhile isWS t).length ≤ t.length :=
      lstrip_length_le t
    rw [h] at hlen
    simp at hlen
  · simpa using hc

lemma lstrip_idem (s : List Char) :
    lstripChars (lstripChars s) = lstripChars s := by
  induction s with
  | nil => rfl
  | cons c t ih =>
    by_cases h : isWS c
    · have hinner : lstripChars (c :: t) = lstripChars t := by
        simp [lstripChars, List.dropWhile_cons, h]
      rw [hinner]
      exact ih
    · rw [lstrip_cons_neg t (by simpa using h),
        lstrip_cons_neg t (by simpa using h)]

lemma rstrip_cons_neg {c : Char} (t : List Char) (h : isWS c = false) :
    rstripChars (c :: t) = c :: rstripChars t := by
  rw [rstripChars]
  simp [h]

lemma rstrip_eq_nil_iff (s : List Char) :
    rstripChars s = [] ↔ ∀ c ∈ s, isWS c = true := by
  induction s with
  | nil => simp [rstripChars]
  | cons c t ih =>
    rw [rstripChars]
    constructor
    · intro h
      by_cases hcond : (rstripChars t).isEmpty && isWS c
      · have h1 : rstripChars t = [] := by
          have := (Bool.and_elim_left hcond)
          simpa [List.isEmpty_iff] using this
        have h2 : isWS c = true := Bool.and_elim_right hcond
        intro x hx
        rcases List.mem_cons.mp hx with rfl | hx
        · exact h2
        · exact ih.mp h1 x hx
      · rw [if_neg (by simpa using hcond)] at h
        cases h
    · intro h
      have h1 : rstripChars t = [] := ih.mpr (fun x hx => h x (List.mem_cons_of_mem _ hx))
      have h2 : isWS c = true := h c (List.mem_cons_self c t)
      rw [if_pos (by simp [h1, h2])]

lemma rstrip_length_le (s : List Char) :
    (rstripChars s).length ≤ s.length := by
  induction s with
  | nil => simp [rstripChars]
  | cons c t ih =>
    rw [rstripChars]
    by_cases hcond : (rstripChars t).isEmpty && isWS c
    · rw [if_pos hcond]
      simp
    · rw [if_neg (by simpa using hcond)]
      simpa using ih

lemma rstrip_idem (s : List Char) :
    rstripChars (rstripChars s) = rstripChars s := by
  induction s with
  | nil => rfl
  | cons c t ih =>
    rw [rstripChars]
    by_cases hcond : (rstripChars t).isEmpty && isWS c
    · rw [if_pos hcond]
      rfl
    · rw [if_neg (by simpa using hcond)]
      rw [rstripChars, ih]
      rw [if_neg (by simpa using hcond)]

lemma lstrip_rstrip_of_fixed {s : List Char} (h : lstripChars s = s) :
    lstripChars (rstripChars s) = rstripChars s := by
  cases s with
  | nil => rfl
  | cons c t =>
    have hc : isWS c = false := lstrip_fixed_head h
    rw [rstrip_cons_neg t hc, lstrip_cons_neg _ hc]

lemma strip_idem (s : List Char) :
    stripChars (stripChars s) = stripChars s := by
  unfold stripChars
  rw [lstrip_rstrip_of_fixed (lstrip_idem s), rstrip_idem]

lemma deWS_append (a b : List Char) : deWS (a ++ b) = deWS a ++ deWS b := by
  simp [deWS, List.filter_append]

lemma deWS_lstrip (s : List Char) : deWS (lstripChars s) = deWS s := by
  induction s with
  | nil => rfl
  | cons c t ih =>
    by_cases h : isWS c
    · have hinner : lstripChars (c :: t) = lstripChars t := by
        simp [lstripChars, List.dropWhile_cons, h]
      rw [hinner, ih,
        show deWS (c :: t) = deWS t from by simp [deWS, List.filter_cons, h]]
    · rw [lstrip_cons_neg t (by simpa using h)]

lemma deWS_eq_nil_of_all_ws {s : List Char} (h : ∀ c ∈ s, isWS c = true) :
    deWS s = [] := by
  induction s with
  | nil => rfl
  | cons c t ih =>
    rw [deWS, List.filter_cons, if_neg (by simp [h c (List.mem_cons_self c t)])]
    exact ih (fun x hx => h x (List.mem_cons_of_mem _ hx))

lemma deWS_rstrip (s : List Char) : deWS (rstripChars s) = deWS s := by
  induction s with
  | nil => rfl
  | cons c t ih =>
    rw [rstripChars]
    by_cases hcond : (rstripChars t).isEmpty && isWS c
    · rw [if_pos hcond]
      have h1 : rstripChars t = [] := by
        have := Bool.and_elim_left hcond
        simpa [List.isEmpty_iff] using this
      have h2 : isWS c = true := Bool.and_elim_right hcond
      have hall : ∀ x ∈ t, isWS x = true := (rstrip_eq_nil_iff t).mp h1
      have : deWS (c :: t) = [] := by
        apply deWS_eq_nil_of_all_ws
        intro x hx
        rcases List.mem_cons.mp hx with rfl | hx
        · exact h2
        · exact hall x hx
      rw [this]
      rfl
    · rw [if_neg (by simpa using hcond)]
      rw [deWS, List.filter_cons, deWS, List.filter_cons]
      cases hws : (! isWS c)
      · simpa [deWS] using ih
      · simp only [cond_true]
        rw [show List.filter (fun x => ! isWS x) (rstripChars t) = deWS (rstripChars t) from rfl,
          show List.filter (fun x => ! isWS x) t = deWS t from rfl, ih]

lemma deWS_strip (s : List Char) : deWS (stripChars s) = deWS s := by
  unfold stripChars
  rw [deWS_rstrip, deWS_lstrip]

lemma listMaxNat_mem : ∀ {l : List Nat} {m : Nat}, listMaxNat l = some m → m ∈ l := by
  intro l
  induction l with
  | nil => intro m h; simp [listMaxNat] at h
  | cons x xs ih =>
    intro m h
    rw [listMaxNat] at h
    cases hxs : listMaxNat xs with
    | none => rw [hxs] at h; simp at h; simp [h]
    | some m2 =>
      rw [hxs] at h
      simp at h
      rcases max_cases x m2 with ⟨heq, _⟩ | ⟨heq, _⟩
      · rw [heq] at h; simp [← h]
      · rw [heq] at h
        exact List.mem_cons_of_mem _ (h ▸ ih hxs)

lemma isPrefixOf_length_le : ∀ {sub l : List Char},
    sub.isPrefixOf l = true → sub.length ≤ l.length := by
  intro sub
  induction sub with
  | nil => intro l _; simp
  | cons a as ih =>
    intro l h
    cases l with
    | nil => simp [List.isPrefixOf] at h
    | cons b bs =>
      simp only [List.isPrefixOf, Bool.and_eq_true] at h
      simpa using Nat.succ_le_succ (ih h.2)

lemma rfindSeq_some_bound {sub window : List Char} {idx : Nat}
    (h : rfindSeq sub window = some idx) :
    idx + sub.length ≤ window.length := by
  have hmem := listMaxNat_mem h
  rw [List.mem_filter] at hmem
  obtain ⟨hrange, hpref⟩ := hmem
  have hidx : idx < window.length + 1 := List.mem_range.mp hrange
  have hlen := isPrefixOf_length_le hpref
  rw [List.length_drop] at hlen
  omega

lemma chooseSplitAux_le (maxLen : Nat) (window : List Char)
    (hwin : window.length ≤ maxLen) :
    ∀ seps, chooseSplitAux maxLen window seps ≤ maxLen := by
  intro seps
  induction seps with
  | nil => rw [chooseSplitAux]
  | cons sep rest ih =>
    rw [chooseSplitAux]
    cases hf : rfindSeq sep window with
    | none => exact ih
    | some idx =>
      dsimp only
      by_cases hth : 3 * maxLen < 10 * idx
      · rw [if_pos hth]
        have := rfindSeq_some_bound hf
        omega
      · rw [if_neg hth]
        exact ih

lemma chooseSplitAux_pos (maxLen : Nat) (window : List Char)
    (hm : 0 < maxLen) :
    ∀ seps, (∀ sep ∈ seps, sep ≠ []) →
      0 < chooseSplitAux maxLen window seps := by
  intro seps
  induction seps with
  | nil =>
    intro _
    rw [chooseSplitAux]
    exact hm
  | cons sep rest ih =>
    intro hne
    rw [chooseSplitAux]
    cases hf : rfindSeq sep window with
    | none => exact ih (fun x hx => hne x (List.mem_cons_of_mem _ hx))
    | some idx =>
      dsimp only
      by_cases hth : 3 * maxLen < 10 * idx
      · rw [if_pos hth]
        have h1 : sep ≠ [] := hne sep (List.mem_cons_self sep rest)
        have h2 : 0 < sep.length := List.length_pos.mpr h1
        omega
      · rw [if_neg hth]
        exact ih (fun x hx => hne x (List.mem_cons_of_mem _ hx))

lemma chooseSplit_le (maxLen : Nat) (window : List Char)
    (hwin : window.length ≤ maxLen) : chooseSplit maxLen window ≤ maxLen :=
  chooseSplitAux_le maxLen window hwin separators

lemma chooseSplit_pos (maxLen : Nat) (window : List Char) (hm : 0 < maxLen) :
    0 < chooseSplit maxLen window :=
  chooseSplitAux_pos maxLen window hm separators (by decide)

/-- The splitting loop preserves the non-whitespace content. -/
lemma splitLoopFuel_deWS (maxLen : Nat) :
    ∀ (fuel : Nat) (remaining : List Char), remaining.length ≤ fuel →
    deWS ((splitLoopFuel maxLen fuel remaining).flatten) = deWS remaining := by
  intro fuel
  induction fuel with
  | zero =>
    intro remaining hlen
    have hnil : remaining = [] := List.length_eq_zero.mp (Nat.le_zero.mp hlen)
    subst hnil
    rfl
  | succ m ih =>
    intro remaining hlen
    rw [splitLoopFuel]
    by_cases hguard : maxLen < remaining.length ∧ 0 < maxLen
    · rw [if_pos hguard]
      dsimp only
      set cut := chooseSplit maxLen (remaining.take maxLen) with hcutdef
      have hcutpos : 0 < cut := chooseSplit_pos _ _ hguard.2
      have hlen2 : (lstripChars (remaining.drop cut)).length ≤ m := by
        have h1 := lstrip_length_le (remaining.drop cut)
        rw [List.length_drop] at h1
        have := hguard.1
        omega
      rw [List.flatten_cons, deWS_append, deWS_rstrip, ih _ hlen2,
        deWS_lstrip, ← deWS_append, List.take_append_drop]
    · rw [if_neg hguard]
      by_cases hempty : (stripChars remaining).isEmpty
      · rw [if_pos hempty]
        have hstr : stripChars remaining = [] := by
          simpa [List.isEmpty_iff] using hempty
        have hd : deWS remaining = [] := by
          rw [← deWS_strip, hstr]
          rfl
        rw [hd]
        rfl
      · rw [if_neg hempty]
        show deWS (stripChars remaining ++ List.flatten []) = _
        rw [List.flatten_nil, List.append_nil, deWS_strip]

/-- Every part produced by the splitting loop is nonempty, trimmed, and at
most `maxLen` long (under the loop's own preconditions: the remainder is
left-stripped and `maxLen` is positive). -/
lemma splitLoopFuel_parts (maxLen : Nat) :
    ∀ (fuel : Nat) (remaining : List Char), remaining.length ≤ fuel →
    lstripChars remaining = remaining → 0 < maxLen →
    ∀ p ∈ splitLoopFuel maxLen fuel remaining,
      p ≠ [] ∧ stripChars p = p ∧ p.length ≤ maxLen := by
  intro fuel
  induction fuel with
  | zero =>
    intro remaining hlen _ _ p hp
    have hnil : remaining = [] := List.length_eq_zero.mp (Nat.le_zero.mp hlen)
    subst hnil
    cases hp
  | succ m ih =>
    intro remaining hlen hfix hml p hp
    rw [splitLoopFuel] at hp
    by_cases hguard : maxLen < remaining.length ∧ 0 < maxLen
    · rw [if_pos hguard] at hp
      dsimp only at hp
      obtain ⟨c, t, rfl⟩ : ∃ c t, remaining = c :: t := by
        cases remaining with
        | nil =>
          exfalso
          have := hguard.1
          simp at this
        | cons c t => exact ⟨c, t, rfl⟩
      have hc : isWS c = false := lstrip_fixed_head hfix
      set cut := chooseSplit maxLen ((c :: t).take maxLen) with hcutdef
      have hcutpos : 0 < cut := chooseSplit_pos _ _ hguard.2
      rcases List.mem_cons.mp hp with rfl | htail
      · refine ⟨?_, ?_, ?_⟩
        · obtain ⟨n, hn⟩ : ∃ n, cut = n + 1 := ⟨cut - 1, by omega⟩
          rw [hn, List.take_succ_cons, rstrip_cons_neg _ hc]
          simp
        · have hs : lstripChars ((c :: t).take cut) = (c :: t).take cut := by
            obtain ⟨n, hn⟩ : ∃ n, cut = n + 1 := ⟨cut - 1, by omega⟩
            rw [hn, List.take_succ_cons]
            exact lstrip_cons_neg _ hc
          unfold stripChars
          rw [lstrip_rstrip_of_fixed hs, rstrip_idem]
        · have h1 := rstrip_length_le ((c :: t).take cut)
          have h2 : ((c :: t).take cut).length ≤ cut := by
            rw [List.length_take]
            omega
          have h3 : cut ≤ maxLen := by
            rw [hcutdef]
            apply chooseSplit_le
            rw [List.length_take]
            omega
          omega
      · have hfix2 : lstripChars (lstripChars ((c :: t).drop cut)) =
            lstripChars ((c :: t).drop cut) := lstrip_idem _
        have hlen2 : (lstripChars ((c :: t).drop cut)).length ≤ m := by
          have h1 := lstrip_length_le ((c :: t).drop cut)
          rw [List.length_drop] at h1
          have := hguard.1
          omega
        exact ih _ hlen2 hfix2 hguard.2 p htail
    · rw [if_neg hguard] at hp
      by_cases hempty : (stripChars remaining).isEmpty
      · rw [if_pos hempty] at hp
        cases hp
      · rw [if_neg hempty] at hp
        rcases List.mem_cons.mp hp with rfl | h
        · refine ⟨by simpa [List.isEmpty_iff] using hempty, strip_idem remaining, ?_⟩
          have h1 : (stripChars remaining).length ≤ remaining.length := by
            unfold stripChars
            calc (rstripChars (lstripChars remaining)).length
                ≤ (lstripChars remaining).length := rstrip_length_le _
              _ ≤ remaining.length := lstrip_length_le _
          have h2 : remaining.length ≤ maxLen := by
            rcases Nat.lt_or_ge maxLen remaining.length with hlt | hge
            · exact absurd ⟨hlt, hml⟩ hguard
            · exact hge
          omega
        · cases h

lemma processPart_deWS (maxPart : Nat) (raw : List Char) (h : 1 ≤ maxPart) :
    deWS ((processPart maxPart raw).flatten) = deWS raw := by
  unfold processPart
  dsimp only
  by_cases hemp : (stripChars raw).isEmpty
  · rw [if_pos hemp]
    have hstr : stripChars raw = [] := by
      simpa [List.isEmpty_iff] using hemp
    have hd : deWS raw = [] := by
      rw [← deWS_strip, hstr]
      rfl
    rw [hd]
    rfl
  · rw [if_neg hemp]
    by_cases hlong : maxPart < (stripChars raw).length
    · rw [if_pos hlong]
      unfold split_long_message
      rw [if_neg (by omega)]
      rw [splitLoopFuel_deWS maxPart (stripChars raw).length (stripChars raw)
        le_rfl, deWS_strip]
    · rw [if_neg hlong]
      show deWS (stripChars raw ++ List.flatten []) = _
      rw [List.flatten_nil, List.append_nil, deWS_strip]

lemma processPart_parts (maxPart : Nat) (raw : List Char) (h : 1 ≤ maxPart) :
    ∀ p ∈ processPart maxPart raw,
      p ≠ [] ∧ stripChars p = p ∧ p.length ≤ maxPart := by
  intro p hp
  unfold processPart at hp
  dsimp only at hp
  by_cases hemp : (stripChars raw).isEmpty
  · rw [if_pos hemp] at hp
    cases hp
  · rw [if_neg hemp] at hp
    by_cases hlong : maxPart < (stripChars raw).length
    · rw [if_pos hlong] at hp
      unfold split_long_message at hp
      rw [if_neg (by omega)] at hp
      have hfix : lstripChars (stripChars raw) = stripChars raw :=
        lstrip_rstrip_of_fixed (lstrip_idem raw)
      exact splitLoopFuel_parts maxPart (stripChars raw).length
        (stripChars raw) le_rfl hfix (by omega) p hp
    · rw [if_neg hlong] at hp
      rcases List.mem_cons.mp hp with rfl | hc
      · exact ⟨by simpa [List.isEmpty_iff] using hemp, strip_idem raw, by omega⟩
      · cases hc

lemma processPart_ne_nil (maxPart : Nat) (raw : List Char) (h : 1 ≤ maxPart)
    (hne : stripChars raw ≠ []) : processPart maxPart raw ≠ [] := by
  unfold processPart
  dsimp only
  rw [if_neg (by simpa [List.isEmpty_iff] using hne)]
  by_cases hlong : maxPart < (stripChars raw).length
  · rw [if_pos hlong]
    unfold split_long_message
    rw [if_neg (by omega)]
    obtain ⟨n, hn⟩ : ∃ n, (stripChars raw).length = n + 1 :=
      ⟨(stripChars raw).length - 1, by omega⟩
    rw [hn, splitLoopFuel]
    rw [if_pos ⟨by omega, by omega⟩]
    dsimp only
    exact List.cons_ne_nil _ _
  · rw [if_neg hlong]
    exact List.cons_ne_nil _ _

lemma deWS_flatten_processed (maxPart : Nat) (h : 1 ≤ maxPart) :
    ∀ raws : List (List Char),
    deWS (((raws.map (processPart maxPart)).flatten).flatten) =
      deWS raws.flatten := by
  intro raws
  induction raws with
  | nil => rfl
  | cons raw rest ih =>
    calc deWS (((List.map (processPart maxPart) (raw :: rest)).flatten).flatten)
        = deWS ((processPart maxPart raw).flatten ++
            ((List.map (processPart maxPart) rest).flatten).flatten) := by
          rw [List.map_cons, List.flatten_cons, List.flatten_append]
      _ = deWS ((processPart maxPart raw).flatten) ++
            deWS (((List.map (processPart maxPart) rest).flatten).flatten) :=
          deWS_append _ _
      _ = deWS raw ++ deWS rest.flatten := by
          rw [processPart_deWS maxPart raw h, ih]
      _ = deWS ((raw :: rest).flatten) := by
          rw [List.flatten_cons, deWS_append]

/-- C2 (counterexample): the non-empty input `" "` (one space) makes the
marker split yield only whitespace segments, so the fallback returns the
stripped original — the empty string: the output `[""]` contains an empty
(non-trimmed-content) part, contradicting "a sequence of non-empty
strings". -/
theorem c2_splitter_counterexample :
    ([' '] : List Char) ≠ [] ∧
    split_response_messages [' '] 2000 = [[]] ∧
    [] ∈ split_response_messages [' '] 2000 := by
  refine ⟨by decide, by decide, by decide⟩

/-- C2 (amended): for every non-empty input, `split_response_messages`
returns a non-empty sequence of trimmed strings; when at least one
marker-split segment has non-whitespace content, every returned part is
additionally non-empty and at most `maxPart` long; when no segment does
(whitespace/marker-only input), the single returned element is the whole
stripped input — which may be empty (or longer than `maxPart`), which is
exactly where the original claim fails. -/
theorem c2_splitter_output_shape (text : List Char) (maxPart : Nat)
    (hmax : 1 ≤ maxPart) (htext : text ≠ []) :
    split_response_messages text maxPart ≠ [] ∧
    (∀ p ∈ split_response_messages text maxPart, stripChars p = p) ∧
    ((∃ raw ∈ splitOnSeq MSG_SPLIT_DELIMITER text, stripChars raw ≠ []) →
      ∀ p ∈ split_response_messages text maxPart,
        p ≠ [] ∧ p.length ≤ maxPart) ∧
    ((∀ raw ∈ splitOnSeq MSG_SPLIT_DELIMITER text, stripChars raw = []) →
      split_response_messages text maxPart = [stripChars text]) := by
  unfold split_response_messages
  dsimp only
  by_cases hfe : (((splitOnSeq MSG_SPLIT_DELIMITER text).map
      (processPart maxPart)).flatten).isEmpty
  · rw [if_pos hfe]
    have hfnil : ((splitOnSeq MSG_SPLIT_DELIMITER text).map
        (processPart maxPart)).flatten = [] := by
      simpa [List.isEmpty_iff] using hfe
    refine ⟨List.cons_ne_nil _ _, ?_, ?_, fun _ => rfl⟩
    · intro p hp
      rcases List.mem_cons.mp hp with rfl | hc
      · exact strip_idem text
      · cases hc
    · rintro ⟨raw, hraw, hne⟩ p hp
      exfalso
      have hpp : processPart maxPart raw ≠ [] :=
        processPart_ne_nil maxPart raw hmax hne
      have hall := List.flatten_eq_nil_iff.mp hfnil
      exact hpp (hall _ (List.mem_map_of_mem _ hraw))
  · rw [if_neg hfe]
    have hfne : ((splitOnSeq MSG_SPLIT_DELIMITER text).map
        (processPart maxPart)).flatten ≠ [] := by
      simpa [List.isEmpty_iff] using hfe
    refine ⟨hfne, ?_, ?_, ?_⟩
    · intro p hp
      rw [List.mem_flatten] at hp
      obtain ⟨l, hl, hmem⟩ := hp
      rw [List.mem_map] at hl
      obtain ⟨raw, hraw, rfl⟩ := hl
      exact (processPart_parts maxPart raw hmax p hmem).2.1
    · intro _ p hp
      rw [List.mem_flatten] at hp
      obtain ⟨l, hl, hmem⟩ := hp
      rw [List.mem_map] at hl
      obtain ⟨raw, hraw, rfl⟩ := hl
      obtain ⟨h1, _, h3⟩ := processPart_parts maxPart raw hmax p hmem
      exact ⟨h1, h3⟩
    · intro hall
      exfalso
      apply hfne
      apply List.flatten_eq_nil_iff.mpr
      intro l hl
      rw [List.mem_map] at hl
      obtain ⟨raw, hraw, rfl⟩ := hl
      unfold processPart
      dsimp only
      rw [if_pos (by simp [List.isEmpty_iff, hall raw hraw])]

/-- C2 (witness): the amended theorem instantiated at
`"a---SPLIT---b"` with the default maximum 2000: the output is non-empty
and all parts are non-empty and within the limit. -/
theorem c2_splitter_output_shape_witness :
    split_response_messages
        ['a', '-', '-', '-', 'S', 'P', 'L', 'I', 'T', '-', '-', '-', 'b']
        2000 ≠ [] ∧
    (∀ p ∈ split_response_messages
        ['a', '-', '-', '-', 'S', 'P', 'L', 'I', 'T', '-', '-', '-', 'b']
        2000, p ≠ [] ∧ p.length ≤ 2000) := by
  have h := c2_splitter_output_shape
    ['a', '-', '-', '-', 'S', 'P', 'L', 'I', 'T', '-', '-', '-', 'b'] 2000
    (by decide) (by decide)
  exact ⟨h.1, h.2.2.1 ⟨['a'], by decide, by decide⟩⟩

/-- C5 (counterexample): the input `"---SPLIT---"` contains the boundary
marker, but the marker split yields only empty segments, so the code
falls back to returning the stripped original — marker included: the
concatenated output's non-whitespace content is `"---SPLIT---"`, not the
(empty) non-marker content. -/
theorem c5_splitter_roundtrip_counterexample :
    containsSeq MSG_SPLIT_DELIMITER MSG_SPLIT_DELIMITER = true ∧
    deWS ((split_response_messages MSG_SPLIT_DELIMITER 2000).flatten) ≠
      deWS ((splitOnSeq MSG_SPLIT_DELIMITER MSG_SPLIT_DELIMITER).flatten) := by
  refine ⟨by decide, by decide⟩

/-- C5 (amended): for every input containing the boundary marker whose
marker split yields at least one segment with non-whitespace content,
concatenating the parts returned by `split_response_messages` reproduces,
up to inserted/removed whitespace, exactly the input's non-marker content
(the concatenation of the marker-split segments), and every returned part
is at most `maxPart` long.  The degenerate marker/whitespace-only inputs,
where the fallback returns the stripped original including its markers,
are exactly the exception the counterexample exhibits. -/
theorem c5_splitter_roundtrip (text : List Char) (maxPart : Nat)
    (hmax : 1 ≤ maxPart)
    (hcontains : containsSeq MSG_SPLIT_DELIMITER text = true)
    (husable : ∃ raw ∈ splitOnSeq MSG_SPLIT_DELIMITER text,
      stripChars raw ≠ []) :
    deWS ((split_response_messages text maxPart).flatten) =
      deWS ((splitOnSeq MSG_SPLIT_DELIMITER text).flatten) ∧
    ∀ p ∈ split_response_messages text maxPart, p.length ≤ maxPart := by
  obtain ⟨raw, hraw, hne⟩ := husable
  have hfne : ((splitOnSeq MSG_SPLIT_DELIMITER text).map
      (processPart maxPart)).flatten ≠ [] := by
    intro hnil
    have hall := List.flatten_eq_nil_iff.mp hnil
    exact processPart_ne_nil maxPart raw hmax hne
      (hall _ (List.mem_map_of_mem _ hraw))
  unfold split_response_messages
  dsimp only
  rw [if_neg (by simpa [List.isEmpty_iff] using hfne)]
  constructor
  · exact deWS_flatten_processed maxPart hmax (splitOnSeq MSG_SPLIT_DELIMITER text)
  · intro p hp
    rw [List.mem_flatten] at hp
    obtain ⟨l, hl, hmem⟩ := hp
    rw [List.mem_map] at hl
    obtain ⟨raw2, hraw2, rfl⟩ := hl
    exact (processPart_parts maxPart raw2 hmax p hmem).2.2

/-- C5 (witness): the amended round-trip at `"a---SPLIT---b"` with the
default maximum 2000. -/
theorem c5_splitter_roundtrip_witness :
    deWS ((split_response_messages
        ['a', '-', '-', '-', 'S', 'P', 'L', 'I', 'T', '-', '-', '-', 'b']
        2000).flatten) =
      deWS ((splitOnSeq MSG_SPLIT_DELIMITER
        ['a', '-', '-', '-', 'S', 'P', 'L', 'I', 'T', '-', '-', '-', 'b']).flatten) ∧
    ∀ p ∈ split_response_messages
        ['a', '-', '-', '-', 'S', 'P', 'L', 'I', 'T', '-', '-', '-', 'b']
        2000, p.length ≤ 2000 :=
  c5_splitter_roundtrip
    ['a', '-', '-', '-', 'S', 'P', 'L', 'I', 'T', '-', '-', '-', 'b'] 2000
    (by decide) (by decide) ⟨['a'], by decide, by decide⟩
